import Mathlib

/-!
Verification of the SMBIOS/DMI table decoding engine (dmidecode.c).

Byte buffers are modelled as `List Nat` (each entry one byte); reading past
the end of a buffer yields 0, matching the fact that the C code only ever
dereferences in-bounds pointers on the paths verified here, and that the
string walker treats the region past the table as terminating.

Machine integers are modelled as `Nat` with explicit `% 2 ^ w` where the C
code can overflow.  Little-endian multi-byte reads (`WORD`, `DWORD`, `QWORD`)
are modelled explicitly.
-/

namespace Dmidecode

/-- One byte of a buffer; out-of-range reads give 0. -/
def byteAt (buf : List Nat) (i : Nat) : Nat := buf.getD i 0

/-- `WORD(buf + i)`: little-endian 16-bit read. -/
def wordAt (buf : List Nat) (i : Nat) : Nat :=
  byteAt buf i + 256 * byteAt buf (i + 1)

/-- `DWORD(buf + i)`: little-endian 32-bit read. -/
def dwordAt (buf : List Nat) (i : Nat) : Nat :=
  byteAt buf i + 256 * byteAt buf (i + 1) + 65536 * byteAt buf (i + 2) +
    16777216 * byteAt buf (i + 3)

/-- `QWORD(buf + i)`: little-endian 64-bit read (as `.l + 2^32 * .h`). -/
def qwordAt (buf : List Nat) (i : Nat) : Nat :=
  dwordAt buf i + 4294967296 * dwordAt buf (i + 4)

/-- `struct dmi_header`: type code, declared length, handle, and a view of the
raw bytes starting at the record (extending to the end of the table, as the
C `data` pointer does). -/
structure DmiHeader where
  type : Nat
  length : Nat
  handle : Nat
  data : List Nat
deriving DecidableEq

/-- `to_dmi_header`: parse the 4-byte fixed header at the start of `data`. -/
def to_dmi_header (data : List Nat) : DmiHeader :=
  { type := byteAt data 0, length := byteAt data 1, handle := wordAt data 2,
    data := data }

/-! ## String table accessor (`dmi_string`, `_dmi_string`) -/

/-- The NUL-terminated byte string starting at offset `p` (bytes up to but not
including the first 0). -/
def strBytesAt (buf : List Nat) (p : Nat) : List Nat :=
  (buf.drop p).takeWhile (fun b => b ≠ 0)

/-- `strlen` of the NUL-terminated string at offset `p`. -/
def strlenAt (buf : List Nat) (p : Nat) : Nat := (strBytesAt buf p).length

/-- `ascii_filter`: replace non-printable bytes (outside [32,126]) by a dot. -/
def ascii_filter (s : List Nat) : List Nat :=
  s.map (fun b => if b < 32 ∨ b ≥ 127 then 46 else b)

/-- The skipping loop of `_dmi_string`: starting at offset `p`, while
`s > 1 && *bp` advance past one NUL-terminated string and decrement `s`;
returns the final offset. -/
def dmi_string_skip (buf : List Nat) (p : Nat) : Nat → Nat
  | 0 => p
  | 1 => p
  | n + 2 =>
    if byteAt buf p ≠ 0 then
      dmi_string_skip buf (p + strlenAt buf p + 1) (n + 1)
    else p

/-- `_dmi_string`: resolve 1-based string index `s` in the string area that
follows the fixed part of the record; `none` models the C `NULL` return. -/
def _dmi_string (dm : DmiHeader) (s : Nat) (filter : Bool) : Option (List Nat) :=
  let p := dmi_string_skip dm.data dm.length s
  if byteAt dm.data p = 0 then none
  else if filter then some (ascii_filter (strBytesAt dm.data p))
  else some (strBytesAt dm.data p)

/-- ASCII codes of a Lean string literal. -/
def strCodes (s : String) : List Nat := s.data.map Char.toNat

/-- The `"Not Specified"` result of `dmi_string` for index 0. -/
def notSpecifiedBytes : List Nat := strCodes "Not Specified"

/-- `bad_index`: the `"<BAD INDEX>"` sentinel. -/
def bad_index : List Nat := strCodes "<BAD INDEX>"

/-- `dmi_string`: index 0 gives `"Not Specified"`, an unresolvable index gives
the bad-index sentinel, otherwise the (ASCII-filtered) string bytes. -/
def dmi_string (dm : DmiHeader) (s : Nat) : List Nat :=
  if s = 0 then notSpecifiedBytes
  else
    match _dmi_string dm s true with
    | none => bad_index
    | some bp => bp

/-- The record's trailing string area, parsed as the list of its non-empty
NUL-terminated strings (ending at the first empty string, i.e. at the
double-NUL terminator). -/
def stringsFrom (buf : List Nat) (p : Nat) : List (List Nat) :=
  if h : byteAt buf p = 0 then []
  else strBytesAt buf p :: stringsFrom buf (p + strlenAt buf p + 1)
termination_by buf.length - p
decreasing_by
  have hp : p < buf.length := by
    by_contra hge
    exact h (List.getD_eq_default _ _ (Nat.le_of_not_lt hge))
  omega

/-- The list of strings of a record's trailing string area. -/
def dmi_strings (dm : DmiHeader) : List (List Nat) :=
  stringsFrom dm.data dm.length

/-! ## Locating the end of a record (`dmi_table_decode`, next-handle scan) -/

/-- The scan loop `while ((unsigned long)(next - buf + 1) < len &&
(next[0] != 0 || next[1] != 0)) next++;` from `dmi_table_decode`.  The fuel
argument is an upper bound on the number of iterations; the wrapper
`next_offset` instantiates it so that it is never exhausted. -/
def scan_terminator (buf : List Nat) (len : Nat) : Nat → Nat → Nat
  | 0, next => next
  | fuel + 1, next =>
    if next + 1 < len ∧ (byteAt buf next ≠ 0 ∨ byteAt buf (next + 1) ≠ 0) then
      scan_terminator buf len fuel (next + 1)
    else next

/-- Offset of the next record: scan from `pos + hlen` for the double-NUL
terminator, then advance two bytes past it. -/
def next_offset (buf : List Nat) (len pos hlen : Nat) : Nat :=
  scan_terminator buf len len (pos + hlen) + 2

theorem scan_terminator_stops (buf : List Nat) (len : Nat) (q : Nat)
    (hq0 : byteAt buf q = 0) (hq1 : byteAt buf (q + 1) = 0) (hqlen : q + 1 < len) :
    ∀ fuel e, e ≤ q → q - e ≤ fuel →
      (∀ r, e ≤ r → r < q → ¬(byteAt buf r = 0 ∧ byteAt buf (r + 1) = 0)) →
      scan_terminator buf len fuel e = q := by
  intro fuel
  induction fuel with
  | zero =>
    intro e he hfe _
    have : e = q := by omega
    subst this
    rfl
  | succ n ih =>
    intro e he hfe hfirst
    by_cases heq : e = q
    · subst heq
      simp [scan_terminator, hq0, hq1]
    · have hlt : e < q := lt_of_le_of_ne he heq
      have hne : byteAt buf e ≠ 0 ∨ byteAt buf (e + 1) ≠ 0 := by
        have hr := hfirst e le_rfl hlt
        by_cases h0 : byteAt buf e = 0
        · exact Or.inr (fun h1 => hr ⟨h0, h1⟩)
        · exact Or.inl h0
      have hb : e + 1 < len := by omega
      rw [scan_terminator, if_pos ⟨hb, hne⟩]
      exact ih (e + 1) hlt (by omega)
        (fun r hr1 hr2 => hfirst r (by omega) hr2)

/-- C1: the walker locates a record's end by scanning forward from
`data + declared_length` for the first pair of consecutive zero bytes and
advancing two bytes past it; in particular, for a record whose fixed header
is immediately followed by two zero bytes, the next record begins at exactly
`declared_length + 2` bytes from the record's start. -/
theorem next_offset_first_double_nul (buf : List Nat) (len pos hlen : Nat) :
    (∀ q, pos + hlen ≤ q → q + 1 < len →
        byteAt buf q = 0 → byteAt buf (q + 1) = 0 →
        (∀ r, pos + hlen ≤ r → r < q →
          ¬(byteAt buf r = 0 ∧ byteAt buf (r + 1) = 0)) →
        next_offset buf len pos hlen = q + 2) ∧
    (byteAt buf (pos + hlen) = 0 → byteAt buf (pos + hlen + 1) = 0 →
        next_offset buf len pos hlen = pos + hlen + 2) := by
  constructor
  · intro q hq hqlen h0 h1 hfirst
    have := scan_terminator_stops buf len q h0 h1 hqlen len (pos + hlen) hq
      (by omega) hfirst
    simp [next_offset, this]
  · intro h0 h1
    have hstop : scan_terminator buf len len (pos + hlen) = pos + hlen := by
      cases len with
      | zero => rfl
      | succ n => simp [scan_terminator, h0, h1]
    simp [next_offset, hstop]

/-- Witness for C1 on a concrete buffer: a type-16 record of declared length 4
immediately followed by two zero bytes; both parts of the theorem give the
next record at offset 6 = 4 + 2. -/
theorem next_offset_first_double_nul_witness :
    byteAt [16, 4, 0, 0, 0, 0] 4 = 0 ∧ byteAt [16, 4, 0, 0, 0, 0] 5 = 0 ∧
    next_offset [16, 4, 0, 0, 0, 0] 6 0 4 = 6 ∧
    next_offset [16, 4, 0, 0, 0, 0] 6 0 4 = 4 + 2 :=
  ⟨by decide, by decide,
    (next_offset_first_double_nul [16, 4, 0, 0, 0, 0] 6 0 4).1 4 (by omega)
      (by decide) (by decide) (by decide) (fun r hr1 hr2 => absurd (hr1.trans_lt hr2) (lt_irrefl 4)),
    (next_offset_first_double_nul [16, 4, 0, 0, 0, 0] 6 0 4).2 (by decide) (by decide)⟩

/-! ## C4: string resolution sentinels -/

theorem byteAt_stringsFrom_skip (buf : List Nat) :
    ∀ n p, (stringsFrom buf p).length < n + 1 →
      byteAt buf (dmi_string_skip buf p (n + 1)) = 0 := by
  intro n
  induction n with
  | zero =>
    intro p hlen
    by_cases h0 : byteAt buf p = 0
    · simpa [dmi_string_skip] using h0
    · rw [stringsFrom, dif_neg h0] at hlen
      simp at hlen
  | succ m ih =>
    intro p hlen
    by_cases h0 : byteAt buf p = 0
    · simp [dmi_string_skip, h0]
    · rw [stringsFrom, dif_neg h0] at hlen
      rw [dmi_string_skip, if_pos h0]
      exact ih (p + strlenAt buf p + 1) (by simpa using Nat.lt_of_succ_lt_succ hlen)

/-- C4: resolving string index 0 returns `"Not Specified"` regardless of the
buffer contents; an index ≥ 1 with no matching non-empty string in the
record's trailing string area returns the `"<BAD INDEX>"` sentinel, which is
distinct from `"Not Specified"`. -/
theorem dmi_string_sentinels (dm : DmiHeader) :
    dmi_string dm 0 = notSpecifiedBytes ∧
    (∀ s, 1 ≤ s → (dmi_strings dm).length < s → dmi_string dm s = bad_index) ∧
    notSpecifiedBytes ≠ bad_index := by
  refine ⟨rfl, ?_, by decide⟩
  intro s hs hlen
  obtain ⟨n, rfl⟩ : ∃ n, s = n + 1 := ⟨s - 1, by omega⟩
  have hz : byteAt dm.data (dmi_string_skip dm.data dm.length (n + 1)) = 0 :=
    byteAt_stringsFrom_skip dm.data n dm.length hlen
  simp [dmi_string, _dmi_string, hz]

/-- Witness for C4: a record of length 4 with an empty string table; index 0
resolves to `"Not Specified"`, index 2 to `"<BAD INDEX>"`. -/
theorem dmi_string_sentinels_witness :
    dmi_string (to_dmi_header [16, 4, 0, 0, 0, 0]) 0 = notSpecifiedBytes ∧
    (1 ≤ 2 ∧ (dmi_strings (to_dmi_header [16, 4, 0, 0, 0, 0])).length < 2) ∧
    dmi_string (to_dmi_header [16, 4, 0, 0, 0, 0]) 2 = bad_index ∧
    notSpecifiedBytes ≠ bad_index := by
  have h := dmi_string_sentinels (to_dmi_header [16, 4, 0, 0, 0, 0])
  have hlen : (dmi_strings (to_dmi_header [16, 4, 0, 0, 0, 0])).length < 2 := by
    rw [dmi_strings, stringsFrom]
    norm_num [to_dmi_header, byteAt, wordAt]
  exact ⟨h.1, ⟨by omega, hlen⟩, h.2.1 2 (by omega) hlen, h.2.2⟩

/-! ## Entry point validation (`smbios_decode`, `smbios3_decode`) -/

/-- Byte sum of the region `buf[off .. off+len)`. -/
def sumRegion (buf : List Nat) (off : Nat) : Nat → Nat
  | 0 => 0
  | len + 1 => sumRegion buf off len + byteAt buf (off + len)

/-- Modelled from the spec: the checksum primitive is defined in `util.c`,
which is not part of this repository snapshot (only its callers are); the
spec describes it as "A checksum primitive: sum of bytes mod 256 equals 0". -/
def checksum (buf : List Nat) (off len : Nat) : Bool :=
  sumRegion buf off len % 256 == 0

/-- `memcmp(buf + off, pat, pat.length) == 0`. -/
def memcmpEq (buf : List Nat) (off : Nat) : List Nat → Bool
  | [] => true
  | b :: rest => (byteAt buf off == b) && memcmpEq buf (off + 1) rest

/-- The 5-byte `"_SM3_"` anchor. -/
def anchor_sm3 : List Nat := [0x5F, 0x53, 0x4D, 0x33, 0x5F]

/-- The first four bytes of `"_SM_"` (the callers compare only 4 bytes). -/
def anchor_sm : List Nat := [0x5F, 0x53, 0x4D, 0x5F]

/-- The 5-byte `"_DMI_"` anchor of the nested legacy sub-structure. -/
def anchor_dmi : List Nat := [0x5F, 0x44, 0x4D, 0x49, 0x5F]

/-- The candidate-validation gate of `smbios3_decode`: reject a declared entry
length above 0x20 before running any checksum, then checksum the declared
entry length.  (The subsequent table decoding is modelled separately.) -/
def smbios3_accept (buf : List Nat) : Bool :=
  if byteAt buf 6 > 0x20 then false
  else checksum buf 0 (byteAt buf 6)

/-- The candidate-validation gate of `smbios_decode`: reject a declared entry
length above 0x20 before running any checksum, then require the entry-length
checksum, the `"_DMI_"` anchor at offset 0x10, and the independent 15-byte
checksum of the nested legacy sub-structure at offset 0x10. -/
def smbios_accept (buf : List Nat) : Bool :=
  if byteAt buf 5 > 0x20 then false
  else
    checksum buf 0 (byteAt buf 5) && memcmpEq buf 0x10 anchor_dmi &&
      checksum buf 0x10 0x0F

/-- `_SM3_` entry-point recognition as performed by the callers of
`smbios3_decode`: the 5-byte anchor comparison followed by the validation
gate. -/
def smbios3_recognized (buf : List Nat) : Bool :=
  memcmpEq buf 0 anchor_sm3 && smbios3_accept buf

/-- `_SM_` entry-point recognition as performed by the callers of
`smbios_decode`: the 4-byte anchor comparison followed by the validation
gate. -/
def smbios_recognized (buf : List Nat) : Bool :=
  memcmpEq buf 0 anchor_sm && smbios_accept buf

/-- C6: a 32-bit `_SM_` entry-point candidate is accepted iff its declared
entry length is at most 0x20, the first declared-length bytes sum to 0 mod
256, the five bytes at offset 0x10 are exactly `"_DMI_"`, and the 15 bytes at
offset 0x10 independently sum to 0 mod 256; an oversized declared length is
rejected before any checksum is computed. -/
theorem smbios_accept_iff (buf : List Nat) :
    (smbios_accept buf = true ↔
      (byteAt buf 5 ≤ 0x20 ∧
       sumRegion buf 0 (byteAt buf 5) % 256 = 0 ∧
       (byteAt buf 0x10 = 0x5F ∧ byteAt buf 0x11 = 0x44 ∧
        byteAt buf 0x12 = 0x4D ∧ byteAt buf 0x13 = 0x49 ∧
        byteAt buf 0x14 = 0x5F) ∧
       sumRegion buf 0x10 0x0F % 256 = 0)) ∧
    (0x20 < byteAt buf 5 → smbios_accept buf = false) := by
  have h2 : 0x20 < byteAt buf 5 → smbios_accept buf = false := by
    intro h
    rw [smbios_accept, if_pos h]
  refine ⟨?_, h2⟩
  by_cases hlen : byteAt buf 5 > 0x20
  · rw [h2 hlen]
    simp
    omega
  · rw [smbios_accept, if_neg hlen]
    simp [checksum, memcmpEq, anchor_dmi]
    omega

theorem byteAt_set_self (buf : List Nat) (i v : Nat) (h : i < buf.length) :
    byteAt (buf.set i v) i = v := by
  simp [byteAt, List.getD, List.getElem?_set_self, h]

theorem byteAt_set_ne (buf : List Nat) (i v k : Nat) (h : k ≠ i) :
    byteAt (buf.set i v) k = byteAt buf k := by
  simp [byteAt, List.getD, List.getElem?_set_ne (fun hh => h hh.symm)]

theorem sumRegion_congr (buf1 buf2 : List Nat) (off : Nat) :
    ∀ len, (∀ k, off ≤ k → k < off + len → byteAt buf1 k = byteAt buf2 k) →
      sumRegion buf1 off len = sumRegion buf2 off len
  | 0, _ => rfl
  | len + 1, h => by
    rw [sumRegion, sumRegion,
      sumRegion_congr buf1 buf2 off len (fun k h1 h2 => h k h1 (by omega)),
      h (off + len) (by omega) (by omega)]

/-- Changing the byte at position `i` inside the summed region changes the
byte sum by exactly the difference of the two byte values. -/
theorem sumRegion_set (buf : List Nat) (i v : Nat) (hi : i < buf.length) :
    ∀ len off, off ≤ i → i < off + len →
      sumRegion (buf.set i v) off len + byteAt buf i = sumRegion buf off len + v
  | 0, off, h1, h2 => by omega
  | len + 1, off, h1, h2 => by
    by_cases hcase : i = off + len
    · have hc : sumRegion (buf.set i v) off len = sumRegion buf off len :=
        sumRegion_congr _ _ off len
          (fun k hk1 hk2 => byteAt_set_ne buf i v k (by omega))
      rw [sumRegion, sumRegion, hc, ← hcase, byteAt_set_self buf i v hi]
      omega
    · have ihl := sumRegion_set buf i v hi len off h1 (by omega)
      rw [sumRegion, sumRegion, byteAt_set_ne buf i v (off + len) (by omega)]
      omega

theorem smbios3_recognized_checksum (buf : List Nat)
    (h : smbios3_recognized buf = true) :
    byteAt buf 6 ≤ 0x20 ∧ sumRegion buf 0 (byteAt buf 6) % 256 = 0 := by
  rw [smbios3_recognized, Bool.and_eq_true] at h
  have h2 := h.2
  rw [smbios3_accept] at h2
  split at h2
  · exact absurd h2 (by simp)
  · exact ⟨by omega, by simpa [checksum] using h2⟩

theorem smbios_recognized_checksums (buf : List Nat)
    (h : smbios_recognized buf = true) :
    byteAt buf 5 ≤ 0x20 ∧ sumRegion buf 0 (byteAt buf 5) % 256 = 0 ∧
      sumRegion buf 0x10 0x0F % 256 = 0 := by
  rw [smbios_recognized, Bool.and_eq_true] at h
  have h2 := h.2
  rw [smbios_accept] at h2
  split at h2
  · exact absurd h2 (by simp)
  · rw [Bool.and_eq_true, Bool.and_eq_true] at h2
    exact ⟨by omega, by simpa [checksum] using h2.1.1,
      by simpa [checksum] using h2.2⟩

/-- An accepted `_SM3_` entry point of this form: anchor, checksum byte 0x5A,
declared entry length 0x18, version 3.2.0, and a byte 0xF8 at offset 0x10
arranged so that the first 0x10 bytes also sum to 0 mod 256. -/
def smbios3_cex_buf : List Nat :=
  [0x5F, 0x53, 0x4D, 0x33, 0x5F, 0x5A, 0x18, 3, 2, 0, 0, 0, 0, 0, 0, 0,
   0xF8, 0, 0, 0, 0, 0, 0, 0]

/-- An accepted `_SM_` entry point: anchor, checksum byte 0x79, entry length
0x1F, version 2.8, nested `_DMI_` sub-structure with checksum byte 0x68. -/
def smbios_wit_buf : List Nat :=
  [0x5F, 0x53, 0x4D, 0x5F, 0x79, 0x1F, 0x02, 0x08, 0, 0, 0, 0, 0, 0, 0, 0,
   0x5F, 0x44, 0x4D, 0x49, 0x5F, 0x68, 0, 0, 0, 0, 0, 0, 0, 0, 0]

/-- C7 counterexample: the claim that mutating any single byte of an accepted
entry-point buffer makes recognition fail is false.  For this accepted
`_SM3_` entry point, mutating the declared-entry-length byte (offset 6) from
0x18 to 0x10 yields a buffer that is still recognized, because the shortened
checksum region also sums to 0 mod 256. -/
theorem entry_point_mutation_counterexample :
    smbios3_recognized smbios3_cex_buf = true ∧
    byteAt smbios3_cex_buf 6 ≠ 0x10 ∧
    smbios3_recognized (smbios3_cex_buf.set 6 0x10) = true := by decide

/-- C7 (amended): for every accepted entry point the checksummed region(s)
sum to 0 mod 256, and mutating any single byte that lies inside a checksummed
region — other than the declared-entry-length byte itself, whose mutation
changes which region is checksummed — makes entry-point recognition fail. -/
theorem entry_point_mutation_amended :
    (∀ buf, smbios3_recognized buf = true →
        sumRegion buf 0 (byteAt buf 6) % 256 = 0) ∧
    (∀ buf, smbios_recognized buf = true →
        sumRegion buf 0 (byteAt buf 5) % 256 = 0 ∧
        sumRegion buf 0x10 0x0F % 256 = 0) ∧
    (∀ buf i v, smbios3_recognized buf = true → i < buf.length →
        i < byteAt buf 6 → i ≠ 6 → v % 256 ≠ byteAt buf i % 256 →
        smbios3_recognized (buf.set i v) = false) ∧
    (∀ buf i v, smbios_recognized buf = true → i < buf.length →
        (i < byteAt buf 5 ∨ (0x10 ≤ i ∧ i < 0x1F)) → i ≠ 5 →
        v % 256 ≠ byteAt buf i % 256 →
        smbios_recognized (buf.set i v) = false) := by
  refine ⟨fun buf h => (smbios3_recognized_checksum buf h).2,
    fun buf h => (smbios_recognized_checksums buf h).2, ?_, ?_⟩
  · intro buf i v hrec hi hilen hi6 hv
    obtain ⟨hle, hsum⟩ := smbios3_recognized_checksum buf hrec
    have h6 : byteAt (buf.set i v) 6 = byteAt buf 6 :=
      byteAt_set_ne buf i v 6 (fun hh => hi6 hh.symm)
    have hkey := sumRegion_set buf i v hi (byteAt buf 6) 0 (Nat.zero_le i)
      (by omega)
    have hbad : ¬ sumRegion (buf.set i v) 0 (byteAt buf 6) % 256 = 0 := by
      omega
    have hacc : smbios3_accept (buf.set i v) = false := by
      rw [smbios3_accept, h6, if_neg (by omega)]
      simpa [checksum] using hbad
    rw [smbios3_recognized, hacc, Bool.and_false]
  · intro buf i v hrec hi hreg hi5 hv
    obtain ⟨hle, hsum1, hsum2⟩ := smbios_recognized_checksums buf hrec
    have h5 : byteAt (buf.set i v) 5 = byteAt buf 5 :=
      byteAt_set_ne buf i v 5 (fun hh => hi5 hh.symm)
    have hacc : smbios_accept (buf.set i v) = false := by
      rw [smbios_accept, h5, if_neg (by omega)]
      rcases hreg with hwithin | hdmi
      · have hkey := sumRegion_set buf i v hi (byteAt buf 5) 0 (Nat.zero_le i)
          (by omega)
        have hbad : ¬ sumRegion (buf.set i v) 0 (byteAt buf 5) % 256 = 0 := by
          omega
        have hc : checksum (buf.set i v) 0 (byteAt buf 5) = false := by
          simpa [checksum] using hbad
        simp [hc]
      · have hkey := sumRegion_set buf i v hi 0x0F 0x10 (by omega) (by omega)
        have hbad : ¬ sumRegion (buf.set i v) 0x10 0x0F % 256 = 0 := by
          omega
        have hc : checksum (buf.set i v) 0x10 0x0F = false := by
          simpa [checksum] using hbad
        simp [hc]
    rw [smbios_recognized, hacc, Bool.and_false]

/-- Witness for C7 (amended): mutating the checksum byte of each accepted
entry point (offset 5 for `_SM3_`, offset 4 for `_SM_`) to 0 makes
recognition fail; both checksummed regions of the `_SM_` entry sum to 0. -/
theorem entry_point_mutation_amended_witness :
    (smbios3_recognized smbios3_cex_buf = true ∧
     smbios3_recognized (smbios3_cex_buf.set 5 0) = false) ∧
    (smbios_recognized smbios_wit_buf = true ∧
     sumRegion smbios_wit_buf 0 (byteAt smbios_wit_buf 5) % 256 = 0 ∧
     sumRegion smbios_wit_buf 0x10 0x0F % 256 = 0 ∧
     smbios_recognized (smbios_wit_buf.set 4 0) = false) :=
  ⟨⟨by decide,
    entry_point_mutation_amended.2.2.1 smbios3_cex_buf 5 0 (by decide)
      (by decide) (by decide) (by decide) (by decide)⟩,
   ⟨by decide,
    (entry_point_mutation_amended.2.1 smbios_wit_buf (by decide)).1,
    (entry_point_mutation_amended.2.1 smbios_wit_buf (by decide)).2,
    entry_point_mutation_amended.2.2.2 smbios_wit_buf 4 0 (by decide)
      (by decide) (Or.inl (by decide)) (by decide) (by decide)⟩⟩

/-! ## Memory size formatting (`dmi_print_memory_size`) -/

/-- The unit names of `dmi_print_memory_size`. -/
def memUnits : List String := ["bytes", "kB", "MB", "GB", "TB", "PB", "EB", "ZB"]

/-- `split[k]`, exactly as computed by `dmi_print_memory_size` from the two
32-bit halves `code.l = code % 2^32` and `code.h = code / 2^32`. -/
def memSplit (code : Nat) : Nat → Nat
  | 0 => (code % 2 ^ 32) &&& 0x3FF
  | 1 => ((code % 2 ^ 32) >>> 10) &&& 0x3FF
  | 2 => ((code % 2 ^ 32) >>> 20) &&& 0x3FF
  | 3 => (((code / 2 ^ 32) <<< 2) &&& 0x3FC) ||| ((code % 2 ^ 32) >>> 30)
  | 4 => ((code / 2 ^ 32) >>> 8) &&& 0x3FF
  | 5 => ((code / 2 ^ 32) >>> 18) &&& 0x3FF
  | _ => (code / 2 ^ 32) >>> 28

/-- The loop `for (i = 6; i > 0; i--) if (split[i]) break;`: the highest
index in 1..6 with a non-zero group, or 0 if none. -/
def memHighIndex (code : Nat) : Nat :=
  if memSplit code 6 ≠ 0 then 6
  else if memSplit code 5 ≠ 0 then 5
  else if memSplit code 4 ≠ 0 then 4
  else if memSplit code 3 ≠ 0 then 3
  else if memSplit code 2 ≠ 0 then 2
  else if memSplit code 1 ≠ 0 then 1
  else 0

/-- `dmi_print_memory_size`, returning the printed capacity value and unit
string (`shift` is 0 if the input counts bytes, 1 if kilobytes). -/
def dmi_print_memory_size (code shift : Nat) : Nat × String :=
  let i := memHighIndex code
  if 0 < i ∧ memSplit code (i - 1) ≠ 0 then
    (memSplit code (i - 1) + (memSplit code i <<< 10),
     memUnits.getD (i - 1 + shift) "")
  else (memSplit code i, memUnits.getD (i + shift) "")

/-- The lowest index with a non-zero group (6 if all groups vanish); this is
the specification-side notion of the lowest exactly-representing unit. -/
def memLowIndex (code : Nat) : Nat :=
  if memSplit code 0 ≠ 0 then 0
  else if memSplit code 1 ≠ 0 then 1
  else if memSplit code 2 ≠ 0 then 2
  else if memSplit code 3 ≠ 0 then 3
  else if memSplit code 4 ≠ 0 then 4
  else if memSplit code 5 ≠ 0 then 5
  else 6

theorem mem_or_small (x b : Nat) (hb : b < 4) : (x * 4) ||| b = x * 4 + b := by
  have hbf : ∀ y : Nat, Nat.bit false y = 2 * y := fun y => by rw [Nat.bit_false]
  have hbt : ∀ y : Nat, Nat.bit true y = 2 * y + 1 := fun y => by rw [Nat.bit_true]
  have e1 : x * 4 = Nat.bit false (Nat.bit false x) := by rw [hbf, hbf]; ring
  interval_cases b
  · simp
  · rw [e1, show (1 : Nat) = Nat.bit true 0 from by rw [hbt], Nat.lor_bit]
    simp only [Bool.false_or, Nat.or_zero, hbf, hbt]
  · rw [e1, show (2 : Nat) = Nat.bit false (Nat.bit true 0) from by rw [hbf, hbt],
      Nat.lor_bit, Nat.lor_bit]
    all_goals simp only [Bool.false_or, Bool.or_self, Nat.or_zero, hbf, hbt]
    all_goals omega
  · rw [e1, show (3 : Nat) = Nat.bit true (Nat.bit true 0) from by rw [hbt, hbt],
      Nat.lor_bit, Nat.lor_bit]
    all_goals simp only [Bool.false_or, Bool.or_self, Nat.or_zero, hbf, hbt]
    all_goals omega

theorem mem_shift_mask (h : Nat) : (h <<< 2) &&& 0x3FC = h % 256 * 4 := by
  have hbf : ∀ y : Nat, Nat.bit false y = 2 * y := fun y => by rw [Nat.bit_false]
  have e1 : h <<< 2 = Nat.bit false (Nat.bit false h) := by
    rw [Nat.shiftLeft_eq, hbf, hbf]; ring
  have e2 : (0x3FC : Nat) = Nat.bit false (Nat.bit false 0xFF) := by
    rw [hbf, hbf]
  rw [e1, e2, Nat.land_bit, Nat.land_bit]
  all_goals simp only [Bool.and_self, hbf]
  all_goals rw [show (0xFF : Nat) = 2 ^ 8 - 1 from by norm_num,
    Nat.and_pow_two_sub_one_eq_mod]
  all_goals ring

/-- The seven `split` values are precisely the base-1024 digit groups of the
64-bit input. -/
theorem memSplit_eq_digit (v : Nat) (hv : v < 2 ^ 64) :
    memSplit v 0 = v % 1024 ∧
    memSplit v 1 = v / 2 ^ 10 % 1024 ∧
    memSplit v 2 = v / 2 ^ 20 % 1024 ∧
    memSplit v 3 = v / 2 ^ 30 % 1024 ∧
    memSplit v 4 = v / 2 ^ 40 % 1024 ∧
    memSplit v 5 = v / 2 ^ 50 % 1024 ∧
    memSplit v 6 = v / 2 ^ 60 % 1024 := by
  have h1023 : (0x3FF : Nat) = 2 ^ 10 - 1 := by norm_num
  refine ⟨?_, ?_, ?_, ?_, ?_, ?_, ?_⟩
  · show (v % 2 ^ 32) &&& 0x3FF = v % 1024
    rw [h1023, Nat.and_pow_two_sub_one_eq_mod]
    omega
  · show ((v % 2 ^ 32) >>> 10) &&& 0x3FF = v / 2 ^ 10 % 1024
    rw [h1023, Nat.and_pow_two_sub_one_eq_mod, Nat.shiftRight_eq_div_pow]
    omega
  · show ((v % 2 ^ 32) >>> 20) &&& 0x3FF = v / 2 ^ 20 % 1024
    rw [h1023, Nat.and_pow_two_sub_one_eq_mod, Nat.shiftRight_eq_div_pow]
    omega
  · show (((v / 2 ^ 32) <<< 2) &&& 0x3FC) ||| ((v % 2 ^ 32) >>> 30) =
      v / 2 ^ 30 % 1024
    rw [mem_shift_mask, Nat.shiftRight_eq_div_pow,
      mem_or_small _ _ (show v % 2 ^ 32 / 2 ^ 30 < 4 by omega)]
    omega
  · show ((v / 2 ^ 32) >>> 8) &&& 0x3FF = v / 2 ^ 40 % 1024
    rw [h1023, Nat.and_pow_two_sub_one_eq_mod, Nat.shiftRight_eq_div_pow]
    omega
  · show ((v / 2 ^ 32) >>> 18) &&& 0x3FF = v / 2 ^ 50 % 1024
    rw [h1023, Nat.and_pow_two_sub_one_eq_mod, Nat.shiftRight_eq_div_pow]
    omega
  · show (v / 2 ^ 32) >>> 28 = v / 2 ^ 60 % 1024
    rw [Nat.shiftRight_eq_div_pow]
    omega

/-- Base-1024 digit telescoping of a natural number. -/
theorem mem_digits (v : Nat) :
    v = v % 1024 + 1024 * (v / 2 ^ 10 % 1024) + 1024 ^ 2 * (v / 2 ^ 20 % 1024) +
        1024 ^ 3 * (v / 2 ^ 30 % 1024) + 1024 ^ 4 * (v / 2 ^ 40 % 1024) +
        1024 ^ 5 * (v / 2 ^ 50 % 1024) + 1024 ^ 6 * (v / 2 ^ 60) := by
  have d1 : v / 2 ^ 10 / 2 ^ 10 = v / 2 ^ 20 := by
    rw [Nat.div_div_eq_div_mul]; norm_num
  have d2 : v / 2 ^ 20 / 2 ^ 10 = v / 2 ^ 30 := by
    rw [Nat.div_div_eq_div_mul]; norm_num
  have d3 : v / 2 ^ 30 / 2 ^ 10 = v / 2 ^ 40 := by
    rw [Nat.div_div_eq_div_mul]; norm_num
  have d4 : v / 2 ^ 40 / 2 ^ 10 = v / 2 ^ 50 := by
    rw [Nat.div_div_eq_div_mul]; norm_num
  have d5 : v / 2 ^ 50 / 2 ^ 10 = v / 2 ^ 60 := by
    rw [Nat.div_div_eq_div_mul]; norm_num
  omega

theorem memHighIndex_eq (v m : Nat) (hm : m ≤ 6)
    (habove : ∀ k, m < k → k ≤ 6 → memSplit v k = 0)
    (hm0 : memSplit v m ≠ 0 ∨ m = 0) :
    memHighIndex v = m := by
  interval_cases m
  · rcases hm0 with h | h
    · simp [memHighIndex, habove 1 (by omega) (by omega),
        habove 2 (by omega) (by omega), habove 3 (by omega) (by omega),
        habove 4 (by omega) (by omega), habove 5 (by omega) (by omega),
        habove 6 (by omega) (by omega)]
    · simp [memHighIndex, habove 1 (by omega) (by omega),
        habove 2 (by omega) (by omega), habove 3 (by omega) (by omega),
        habove 4 (by omega) (by omega), habove 5 (by omega) (by omega),
        habove 6 (by omega) (by omega)]
  · rcases hm0 with h | h
    · simp [memHighIndex, h, habove 2 (by omega) (by omega),
        habove 3 (by omega) (by omega), habove 4 (by omega) (by omega),
        habove 5 (by omega) (by omega), habove 6 (by omega) (by omega)]
    · omega
  · rcases hm0 with h | h
    · simp [memHighIndex, h, habove 3 (by omega) (by omega),
        habove 4 (by omega) (by omega), habove 5 (by omega) (by omega),
        habove 6 (by omega) (by omega)]
    · omega
  · rcases hm0 with h | h
    · simp [memHighIndex, h, habove 4 (by omega) (by omega),
        habove 5 (by omega) (by omega), habove 6 (by omega) (by omega)]
    · omega
  · rcases hm0 with h | h
    · simp [memHighIndex, h, habove 5 (by omega) (by omega),
        habove 6 (by omega) (by omega)]
    · omega
  · rcases hm0 with h | h
    · simp [memHighIndex, h, habove 6 (by omega) (by omega)]
    · omega
  · rcases hm0 with h | h
    · simp [memHighIndex, h]
    · omega

theorem memLowIndex_eq (v m : Nat) (hm : m ≤ 6)
    (hbelow : ∀ k, k < m → memSplit v k = 0)
    (hm0 : memSplit v m ≠ 0) :
    memLowIndex v = m := by
  interval_cases m
  · simp [memLowIndex, hm0]
  · simp [memLowIndex, hbelow 0 (by omega), hm0]
  · simp [memLowIndex, hbelow 0 (by omega), hbelow 1 (by omega), hm0]
  · simp [memLowIndex, hbelow 0 (by omega), hbelow 1 (by omega),
      hbelow 2 (by omega), hm0]
  · simp [memLowIndex, hbelow 0 (by omega), hbelow 1 (by omega),
      hbelow 2 (by omega), hbelow 3 (by omega), hm0]
  · simp [memLowIndex, hbelow 0 (by omega), hbelow 1 (by omega),
      hbelow 2 (by omega), hbelow 3 (by omega), hbelow 4 (by omega), hm0]
  · simp [memLowIndex, hbelow 0 (by omega), hbelow 1 (by omega),
      hbelow 2 (by omega), hbelow 3 (by omega), hbelow 4 (by omega),
      hbelow 5 (by omega)]

/-- When only groups `j` and `j+1` can be non-zero, the two-group capacity at
unit `j` represents the value exactly. -/
theorem mem_exact (v : Nat) (hv : v < 2 ^ 64) (j : Nat) (hj : j ≤ 5)
    (hz : ∀ k, k ≤ 6 → k ≠ j → k ≠ j + 1 → memSplit v k = 0) :
    (memSplit v j + memSplit v (j + 1) * 1024) * 1024 ^ j = v := by
  obtain ⟨e0, e1, e2, e3, e4, e5, e6⟩ := memSplit_eq_digit v hv
  have hdig := mem_digits v
  have hv60 : v / 2 ^ 60 < 1024 := by omega
  interval_cases j
  · have z2 := hz 2 (by omega) (by omega) (by omega)
    have z3 := hz 3 (by omega) (by omega) (by omega)
    have z4 := hz 4 (by omega) (by omega) (by omega)
    have z5 := hz 5 (by omega) (by omega) (by omega)
    have z6 := hz 6 (by omega) (by omega) (by omega)
    rw [e2] at z2; rw [e3] at z3; rw [e4] at z4; rw [e5] at z5; rw [e6] at z6
    rw [e0, e1]
    omega
  · have z0 := hz 0 (by omega) (by omega) (by omega)
    have z3 := hz 3 (by omega) (by omega) (by omega)
    have z4 := hz 4 (by omega) (by omega) (by omega)
    have z5 := hz 5 (by omega) (by omega) (by omega)
    have z6 := hz 6 (by omega) (by omega) (by omega)
    rw [e0] at z0; rw [e3] at z3; rw [e4] at z4; rw [e5] at z5; rw [e6] at z6
    rw [e1, e2]
    omega
  · have z0 := hz 0 (by omega) (by omega) (by omega)
    have z1 := hz 1 (by omega) (by omega) (by omega)
    have z4 := hz 4 (by omega) (by omega) (by omega)
    have z5 := hz 5 (by omega) (by omega) (by omega)
    have z6 := hz 6 (by omega) (by omega) (by omega)
    rw [e0] at z0; rw [e1] at z1; rw [e4] at z4; rw [e5] at z5; rw [e6] at z6
    rw [e2, e3]
    omega
  · have z0 := hz 0 (by omega) (by omega) (by omega)
    have z1 := hz 1 (by omega) (by omega) (by omega)
    have z2 := hz 2 (by omega) (by omega) (by omega)
    have z5 := hz 5 (by omega) (by omega) (by omega)
    have z6 := hz 6 (by omega) (by omega) (by omega)
    rw [e0] at z0; rw [e1] at z1; rw [e2] at z2; rw [e5] at z5; rw [e6] at z6
    rw [e3, e4]
    omega
  · have z0 := hz 0 (by omega) (by omega) (by omega)
    have z1 := hz 1 (by omega) (by omega) (by omega)
    have z2 := hz 2 (by omega) (by omega) (by omega)
    have z3 := hz 3 (by omega) (by omega) (by omega)
    have z6 := hz 6 (by omega) (by omega) (by omega)
    rw [e0] at z0; rw [e1] at z1; rw [e2] at z2; rw [e3] at z3; rw [e6] at z6
    rw [e4, e5]
    omega
  · have z0 := hz 0 (by omega) (by omega) (by omega)
    have z1 := hz 1 (by omega) (by omega) (by omega)
    have z2 := hz 2 (by omega) (by omega) (by omega)
    have z3 := hz 3 (by omega) (by omega) (by omega)
    have z4 := hz 4 (by omega) (by omega) (by omega)
    rw [e0] at z0; rw [e1] at z1; rw [e2] at z2; rw [e3] at z3; rw [e4] at z4
    rw [e5, e6]
    omega

/-- C5: `dmi_print_memory_size` splits the 64-bit value into 10-bit groups
(powers of 1024) and, when at most two adjacent groups are non-zero, picks
the lowest unit in which the value is exactly representable, displaying
`low_group + (high_group << 10)` in that lower unit; in particular an input
of 4096 bytes is printed as "4 kB", never as "0 MB". -/
theorem dmi_print_memory_size_lowest_unit (v shift j : Nat) (hv : v < 2 ^ 64)
    (hj : j ≤ 5) (hnz : v ≠ 0)
    (hsparse : ∀ k, k ≤ 6 → k ≠ j → k ≠ j + 1 → memSplit v k = 0) :
    (∀ k, k ≤ 6 → memSplit v k = v / 2 ^ (10 * k) % 1024) ∧
    memLowIndex v ≤ 6 ∧
    memSplit v (memLowIndex v) ≠ 0 ∧
    (∀ k, k < memLowIndex v → memSplit v k = 0) ∧
    (dmi_print_memory_size v shift).1 * 1024 ^ memLowIndex v = v ∧
    (dmi_print_memory_size v shift).2 =
      memUnits.getD (memLowIndex v + shift) "" ∧
    dmi_print_memory_size 4096 0 = (4, "kB") := by
  obtain ⟨e0, e1, e2, e3, e4, e5, e6⟩ := memSplit_eq_digit v hv
  have hall : ∀ k, k ≤ 6 → memSplit v k = v / 2 ^ (10 * k) % 1024 := by
    intro k hk
    interval_cases k
    · simpa using e0
    · simpa using e1
    · simpa using e2
    · simpa using e3
    · simpa using e4
    · simpa using e5
    · simpa using e6
  have hex := mem_exact v hv j hj hsparse
  have hsh : memSplit v (j + 1) <<< 10 = memSplit v (j + 1) * 1024 := by
    rw [Nat.shiftLeft_eq]
  by_cases hgj : memSplit v j = 0
  · by_cases hgj1 : memSplit v (j + 1) = 0
    · exfalso
      apply hnz
      rw [hgj, hgj1] at hex
      simpa using hex.symm
    · -- only the high group is non-zero: one-group display at unit j+1
      have hL : memLowIndex v = j + 1 :=
        memLowIndex_eq v (j + 1) (by omega)
          (fun k hk => by
            rcases eq_or_ne k j with rfl | hne
            · exact hgj
            · exact hsparse k (by omega) hne (by omega)) hgj1
      have hH : memHighIndex v = j + 1 :=
        memHighIndex_eq v (j + 1) (by omega)
          (fun k h1 h2 => hsparse k h2 (by omega) (by omega)) (Or.inl hgj1)
      have hprint : dmi_print_memory_size v shift =
          (memSplit v (j + 1), memUnits.getD (j + 1 + shift) "") := by
        simp only [dmi_print_memory_size]
        rw [hH, Nat.add_sub_cancel, if_neg (by rintro ⟨-, hc⟩; exact hc hgj)]
      have hexact : memSplit v (j + 1) * 1024 ^ (j + 1) = v := by
        rw [hgj] at hex
        calc memSplit v (j + 1) * 1024 ^ (j + 1)
            = (0 + memSplit v (j + 1) * 1024) * 1024 ^ j := by rw [pow_succ]; ring
          _ = v := hex
      refine ⟨hall, by omega, by rw [hL]; exact hgj1, ?_, ?_, ?_, by decide⟩
      · intro k hk
        rw [hL] at hk
        rcases eq_or_ne k j with rfl | hne
        · exact hgj
        · exact hsparse k (by omega) hne (by omega)
      · rw [hprint, hL]
        exact hexact
      · rw [hprint, hL]
  · have hL : memLowIndex v = j :=
      memLowIndex_eq v j (by omega)
        (fun k hk => hsparse k (by omega) (by omega) (by omega)) hgj
    by_cases hgj1 : memSplit v (j + 1) = 0
    · -- only the low group is non-zero: one-group display at unit j
      have hH : memHighIndex v = j :=
        memHighIndex_eq v j (by omega)
          (fun k h1 h2 => by
            rcases eq_or_ne k (j + 1) with rfl | hne
            · exact hgj1
            · exact hsparse k h2 (by omega) hne) (Or.inl hgj)
      have hprint : dmi_print_memory_size v shift =
          (memSplit v j, memUnits.getD (j + shift) "") := by
        simp only [dmi_print_memory_size]
        rw [hH, if_neg (by
          rintro ⟨hj0, hc⟩
          exact hc (hsparse (j - 1) (by omega) (by omega) (by omega)))]
      have hexact : memSplit v j * 1024 ^ j = v := by
        rw [hgj1] at hex
        simpa using hex
      refine ⟨hall, by omega, by rw [hL]; exact hgj, ?_, ?_, ?_, by decide⟩
      · intro k hk
        rw [hL] at hk
        exact hsparse k (by omega) (by omega) (by omega)
      · rw [hprint, hL]
        exact hexact
      · rw [hprint, hL]
    · -- both groups non-zero: two-group display at the lower unit j
      have hH : memHighIndex v = j + 1 :=
        memHighIndex_eq v (j + 1) (by omega)
          (fun k h1 h2 => hsparse k h2 (by omega) (by omega)) (Or.inl hgj1)
      have hprint : dmi_print_memory_size v shift =
          (memSplit v j + memSplit v (j + 1) * 1024,
           memUnits.getD (j + shift) "") := by
        simp only [dmi_print_memory_size]
        rw [hH, Nat.add_sub_cancel, if_pos ⟨by omega, hgj⟩, hsh]
      refine ⟨hall, by omega, by rw [hL]; exact hgj, ?_, ?_, ?_, by decide⟩
      · intro k hk
        rw [hL] at hk
        exact hsparse k (by omega) (by omega) (by omega)
      · rw [hprint, hL]
        exact hex
      · rw [hprint, hL]

/-- Witness for C5: v = 4096 bytes has groups `split[1] = 4` and all others
zero (j = 1 covers non-zero groups {1}); the decoder prints "4 kB". -/
theorem dmi_print_memory_size_lowest_unit_witness :
    ((4096 : Nat) < 2 ^ 64 ∧ (1 : Nat) ≤ 5 ∧ (4096 : Nat) ≠ 0 ∧
      (∀ k, k ≤ 6 → k ≠ 1 → k ≠ 2 → memSplit 4096 k = 0)) ∧
    memLowIndex 4096 = 1 ∧
    (dmi_print_memory_size 4096 0).1 * 1024 ^ memLowIndex 4096 = 4096 ∧
    dmi_print_memory_size 4096 0 = (4, "kB") := by
  have hsp : ∀ k, k ≤ 6 → k ≠ 1 → k ≠ 2 → memSplit 4096 k = 0 := by
    intro k hk h1 h2
    interval_cases k <;> first | rfl | omega
  have h := dmi_print_memory_size_lowest_unit 4096 0 1 (by norm_num) (by norm_num)
    (by norm_num) hsp
  exact ⟨⟨by norm_num, by norm_num, by norm_num, hsp⟩, by decide, h.2.2.2.2.1, h.2.2.2.2.2.2⟩

/-! ## Physical Memory Array decoding (`dmi_decode`, case 16) -/

/-- `<OUT OF SPEC>` rendering sentinel. -/
def out_of_spec : String := "<OUT OF SPEC>"

/-- `dmi_memory_array_location` (7.17.1). -/
def dmi_memory_array_location (code : Nat) : String :=
  if 0x01 ≤ code ∧ code ≤ 0x0A then
    ["Other", "Unknown", "System Board Or Motherboard", "ISA Add-on Card",
     "EISA Add-on Card", "PCI Add-on Card", "MCA Add-on Card",
     "PCMCIA Add-on Card", "Proprietary Add-on Card", "NuBus"].getD
      (code - 0x01) ""
  else if 0xA0 ≤ code ∧ code ≤ 0xA4 then
    ["PC-98/C20 Add-on Card", "PC-98/C24 Add-on Card", "PC-98/E Add-on Card",
     "PC-98/Local Bus Add-on Card", "CXL Flexbus 1.0"].getD (code - 0xA0) ""
  else out_of_spec

/-- `dmi_memory_array_use` (7.17.2). -/
def dmi_memory_array_use (code : Nat) : String :=
  if 0x01 ≤ code ∧ code ≤ 0x07 then
    ["Other", "Unknown", "System Memory", "Video Memory", "Flash Memory",
     "Non-volatile RAM", "Cache Memory"].getD (code - 0x01) ""
  else out_of_spec

/-- `dmi_memory_array_ec_type` (7.17.3). -/
def dmi_memory_array_ec_type (code : Nat) : String :=
  if 0x01 ≤ code ∧ code ≤ 0x07 then
    ["Other", "Unknown", "None", "Parity", "Single-bit ECC", "Multi-bit ECC",
     "CRC"].getD (code - 0x01) ""
  else out_of_spec

/-- Output events of the per-type field decoders (`pr_handle_name`,
`pr_attr` and friends). -/
inductive PrEv where
  | handleName (s : String)
  | attr (name value : String)
  | attrNum (name : String) (v : Nat)
  | attrCap (name : String) (cap : Nat) (unit : String)
  | attrHex16 (name : String) (v : Nat)
deriving DecidableEq

/-- `dmi_memory_array_error_handle`. -/
def dmi_memory_array_error_handle (code : Nat) : PrEv :=
  if code = 0xFFFE then PrEv.attr "Error Information Handle" "Not Provided"
  else if code = 0xFFFF then PrEv.attr "Error Information Handle" "No Error"
  else PrEv.attrHex16 "Error Information Handle" code

/-- A `pr_attr` produced by `dmi_print_memory_size`. -/
def memSizeEv (name : String) (code shift : Nat) : PrEv :=
  PrEv.attrCap name (dmi_print_memory_size code shift).1
    (dmi_print_memory_size code shift).2

/-- `case 16` of `dmi_decode`: Physical Memory Array. -/
def dmi_decode_type16 (h : DmiHeader) (quiet : Bool) : List PrEv :=
  PrEv.handleName "Physical Memory Array" ::
  (if h.length < 0x0F then []
   else
     [PrEv.attr "Location" (dmi_memory_array_location (byteAt h.data 0x04)),
      PrEv.attr "Use" (dmi_memory_array_use (byteAt h.data 0x05)),
      PrEv.attr "Error Correction Type"
        (dmi_memory_array_ec_type (byteAt h.data 0x06))] ++
     (if dwordAt h.data 0x07 = 0x80000000 then
        if h.length < 0x17 then [PrEv.attr "Maximum Capacity" "Unknown"]
        else [memSizeEv "Maximum Capacity" (qwordAt h.data 0x0F) 0]
      else [memSizeEv "Maximum Capacity" (dwordAt h.data 0x07) 1]) ++
     (if ¬quiet then [dmi_memory_array_error_handle (wordAt h.data 0x0B)]
      else []) ++
     [PrEv.attrNum "Number Of Devices" (wordAt h.data 0x0D)])

/-- Raw bytes of a concrete Physical Memory Array record whose max-capacity
DWORD at offset 0x07 is 0x80000000. -/
def c8buf : List Nat :=
  [16, 0x16, 0, 0, 1, 3, 3, 0, 0, 0, 0x80, 0xFE, 0xFF, 2, 0]

/-- C8: a Physical Memory Array record whose maximum-capacity DWORD at offset
0x07 is 0x80000000 and whose declared length is below 0x17 prints
"Maximum Capacity: Unknown" and its output does not depend on any byte at
offset 0x0F or beyond (the 64-bit extended-capacity field is not read);
more generally a field whose offset lies beyond the declared length is
omitted: with declared length below 0x0F no type-16 field is printed at
all. -/
theorem dmi_decode_type16_unknown_capacity (h : DmiHeader) (quiet : Bool)
    (hcap : dwordAt h.data 0x07 = 0x80000000) (hlen : h.length < 0x17) :
    (0x0F ≤ h.length →
      (PrEv.attr "Maximum Capacity" "Unknown" ∈ dmi_decode_type16 h quiet ∧
       ∀ data2 : List Nat, (∀ k, k < 0x0F → byteAt data2 k = byteAt h.data k) →
         dmi_decode_type16 ⟨h.type, h.length, h.handle, data2⟩ quiet =
           dmi_decode_type16 h quiet)) ∧
    (h.length < 0x0F →
      dmi_decode_type16 h quiet = [PrEv.handleName "Physical Memory Array"]) := by
  constructor
  · intro hge
    have hnl : ¬ h.length < 0x0F := by omega
    constructor
    · simp [dmi_decode_type16, hnl, hcap, hlen]
    · intro data2 hagree
      have hb : ∀ k, k < 0x0F → byteAt data2 k = byteAt h.data k := hagree
      have hd : dwordAt data2 0x07 = dwordAt h.data 0x07 := by
        simp [dwordAt, hb 0x07 (by omega), hb 0x08 (by omega),
          hb 0x09 (by omega), hb 0x0A (by omega)]
      have hw1 : wordAt data2 0x0B = wordAt h.data 0x0B := by
        simp [wordAt, hb 0x0B (by omega), hb 0x0C (by omega)]
      have hw2 : wordAt data2 0x0D = wordAt h.data 0x0D := by
        simp [wordAt, hb 0x0D (by omega), hb 0x0E (by omega)]
      simp [dmi_decode_type16, hnl, hcap, hlen, hd, hw1, hw2,
        hb 0x04 (by omega), hb 0x05 (by omega), hb 0x06 (by omega)]
  · intro hlt
    simp [dmi_decode_type16, hlt]

/-- Witness for C8: a 14-byte type-16 record (declared length 0x0E) prints
only its handle name, and the same record with declared length 0x16 and
max-capacity DWORD 0x80000000 prints the Unknown capacity attribute. -/
theorem dmi_decode_type16_unknown_capacity_witness :
    (dwordAt c8buf 0x07 = 0x80000000 ∧ (0x16 : Nat) < 0x17 ∧
      (0x0F : Nat) ≤ 0x16) ∧
    PrEv.attr "Maximum Capacity" "Unknown" ∈
      dmi_decode_type16 ⟨16, 0x16, 0, c8buf⟩ false ∧
    dmi_decode_type16 ⟨16, 0x0E, 0, c8buf⟩ false =
      [PrEv.handleName "Physical Memory Array"] := by
  refine ⟨⟨by decide, by decide, by decide⟩, ?_, ?_⟩
  · exact ((dmi_decode_type16_unknown_capacity ⟨16, 0x16, 0, c8buf⟩ false
      (by decide) (by decide)).1 (by decide)).1
  · exact (dmi_decode_type16_unknown_capacity ⟨16, 0x0E, 0, c8buf⟩ false
      (by decide) (by decide)).2 (by decide)

/-! ## Processor family decoding (`dmi_processor_family`) -/

/-- The sorted, sparse processor-family lookup table (7.5.2). -/
def family2 : List (Nat × String) := [
  (0x01, "Other"),
  (0x02, "Unknown"),
  (0x03, "8086"),
  (0x04, "80286"),
  (0x05, "80386"),
  (0x06, "80486"),
  (0x07, "8087"),
  (0x08, "80287"),
  (0x09, "80387"),
  (0x0A, "80487"),
  (0x0B, "Pentium"),
  (0x0C, "Pentium Pro"),
  (0x0D, "Pentium II"),
  (0x0E, "Pentium MMX"),
  (0x0F, "Celeron"),
  (0x10, "Pentium II Xeon"),
  (0x11, "Pentium III"),
  (0x12, "M1"),
  (0x13, "M2"),
  (0x14, "Celeron M"),
  (0x15, "Pentium 4 HT"),
  (0x18, "Duron"),
  (0x19, "K5"),
  (0x1A, "K6"),
  (0x1B, "K6-2"),
  (0x1C, "K6-3"),
  (0x1D, "Athlon"),
  (0x1E, "AMD29000"),
  (0x1F, "K6-2+"),
  (0x20, "Power PC"),
  (0x21, "Power PC 601"),
  (0x22, "Power PC 603"),
  (0x23, "Power PC 603+"),
  (0x24, "Power PC 604"),
  (0x25, "Power PC 620"),
  (0x26, "Power PC x704"),
  (0x27, "Power PC 750"),
  (0x28, "Core Duo"),
  (0x29, "Core Duo Mobile"),
  (0x2A, "Core Solo Mobile"),
  (0x2B, "Atom"),
  (0x2C, "Core M"),
  (0x2D, "Core m3"),
  (0x2E, "Core m5"),
  (0x2F, "Core m7"),
  (0x30, "Alpha"),
  (0x31, "Alpha 21064"),
  (0x32, "Alpha 21066"),
  (0x33, "Alpha 21164"),
  (0x34, "Alpha 21164PC"),
  (0x35, "Alpha 21164a"),
  (0x36, "Alpha 21264"),
  (0x37, "Alpha 21364"),
  (0x38, "Turion II Ultra Dual-Core Mobile M"),
  (0x39, "Turion II Dual-Core Mobile M"),
  (0x3A, "Athlon II Dual-Core M"),
  (0x3B, "Opteron 6100"),
  (0x3C, "Opteron 4100"),
  (0x3D, "Opteron 6200"),
  (0x3E, "Opteron 4200"),
  (0x3F, "FX"),
  (0x40, "MIPS"),
  (0x41, "MIPS R4000"),
  (0x42, "MIPS R4200"),
  (0x43, "MIPS R4400"),
  (0x44, "MIPS R4600"),
  (0x45, "MIPS R10000"),
  (0x46, "C-Series"),
  (0x47, "E-Series"),
  (0x48, "A-Series"),
  (0x49, "G-Series"),
  (0x4A, "Z-Series"),
  (0x4B, "R-Series"),
  (0x4C, "Opteron 4300"),
  (0x4D, "Opteron 6300"),
  (0x4E, "Opteron 3300"),
  (0x4F, "FirePro"),
  (0x50, "SPARC"),
  (0x51, "SuperSPARC"),
  (0x52, "MicroSPARC II"),
  (0x53, "MicroSPARC IIep"),
  (0x54, "UltraSPARC"),
  (0x55, "UltraSPARC II"),
  (0x56, "UltraSPARC IIi"),
  (0x57, "UltraSPARC III"),
  (0x58, "UltraSPARC IIIi"),
  (0x60, "68040"),
  (0x61, "68xxx"),
  (0x62, "68000"),
  (0x63, "68010"),
  (0x64, "68020"),
  (0x65, "68030"),
  (0x66, "Athlon X4"),
  (0x67, "Opteron X1000"),
  (0x68, "Opteron X2000"),
  (0x69, "Opteron A-Series"),
  (0x6A, "Opteron X3000"),
  (0x6B, "Zen"),
  (0x70, "Hobbit"),
  (0x78, "Crusoe TM5000"),
  (0x79, "Crusoe TM3000"),
  (0x7A, "Efficeon TM8000"),
  (0x80, "Weitek"),
  (0x82, "Itanium"),
  (0x83, "Athlon 64"),
  (0x84, "Opteron"),
  (0x85, "Sempron"),
  (0x86, "Turion 64"),
  (0x87, "Dual-Core Opteron"),
  (0x88, "Athlon 64 X2"),
  (0x89, "Turion 64 X2"),
  (0x8A, "Quad-Core Opteron"),
  (0x8B, "Third-Generation Opteron"),
  (0x8C, "Phenom FX"),
  (0x8D, "Phenom X4"),
  (0x8E, "Phenom X2"),
  (0x8F, "Athlon X2"),
  (0x90, "PA-RISC"),
  (0x91, "PA-RISC 8500"),
  (0x92, "PA-RISC 8000"),
  (0x93, "PA-RISC 7300LC"),
  (0x94, "PA-RISC 7200"),
  (0x95, "PA-RISC 7100LC"),
  (0x96, "PA-RISC 7100"),
  (0xA0, "V30"),
  (0xA1, "Quad-Core Xeon 3200"),
  (0xA2, "Dual-Core Xeon 3000"),
  (0xA3, "Quad-Core Xeon 5300"),
  (0xA4, "Dual-Core Xeon 5100"),
  (0xA5, "Dual-Core Xeon 5000"),
  (0xA6, "Dual-Core Xeon LV"),
  (0xA7, "Dual-Core Xeon ULV"),
  (0xA8, "Dual-Core Xeon 7100"),
  (0xA9, "Quad-Core Xeon 5400"),
  (0xAA, "Quad-Core Xeon"),
  (0xAB, "Dual-Core Xeon 5200"),
  (0xAC, "Dual-Core Xeon 7200"),
  (0xAD, "Quad-Core Xeon 7300"),
  (0xAE, "Quad-Core Xeon 7400"),
  (0xAF, "Multi-Core Xeon 7400"),
  (0xB0, "Pentium III Xeon"),
  (0xB1, "Pentium III Speedstep"),
  (0xB2, "Pentium 4"),
  (0xB3, "Xeon"),
  (0xB4, "AS400"),
  (0xB5, "Xeon MP"),
  (0xB6, "Athlon XP"),
  (0xB7, "Athlon MP"),
  (0xB8, "Itanium 2"),
  (0xB9, "Pentium M"),
  (0xBA, "Celeron D"),
  (0xBB, "Pentium D"),
  (0xBC, "Pentium EE"),
  (0xBD, "Core Solo"),
  (0xBF, "Core 2 Duo"),
  (0xC0, "Core 2 Solo"),
  (0xC1, "Core 2 Extreme"),
  (0xC2, "Core 2 Quad"),
  (0xC3, "Core 2 Extreme Mobile"),
  (0xC4, "Core 2 Duo Mobile"),
  (0xC5, "Core 2 Solo Mobile"),
  (0xC6, "Core i7"),
  (0xC7, "Dual-Core Celeron"),
  (0xC8, "IBM390"),
  (0xC9, "G4"),
  (0xCA, "G5"),
  (0xCB, "ESA/390 G6"),
  (0xCC, "z/Architecture"),
  (0xCD, "Core i5"),
  (0xCE, "Core i3"),
  (0xCF, "Core i9"),
  (0xD2, "C7-M"),
  (0xD3, "C7-D"),
  (0xD4, "C7"),
  (0xD5, "Eden"),
  (0xD6, "Multi-Core Xeon"),
  (0xD7, "Dual-Core Xeon 3xxx"),
  (0xD8, "Quad-Core Xeon 3xxx"),
  (0xD9, "Nano"),
  (0xDA, "Dual-Core Xeon 5xxx"),
  (0xDB, "Quad-Core Xeon 5xxx"),
  (0xDD, "Dual-Core Xeon 7xxx"),
  (0xDE, "Quad-Core Xeon 7xxx"),
  (0xDF, "Multi-Core Xeon 7xxx"),
  (0xE0, "Multi-Core Xeon 3400"),
  (0xE4, "Opteron 3000"),
  (0xE5, "Sempron II"),
  (0xE6, "Embedded Opteron Quad-Core"),
  (0xE7, "Phenom Triple-Core"),
  (0xE8, "Turion Ultra Dual-Core Mobile"),
  (0xE9, "Turion Dual-Core Mobile"),
  (0xEA, "Athlon Dual-Core"),
  (0xEB, "Sempron SI"),
  (0xEC, "Phenom II"),
  (0xED, "Athlon II"),
  (0xEE, "Six-Core Opteron"),
  (0xEF, "Sempron M"),
  (0xFA, "i860"),
  (0xFB, "i960"),
  (0x100, "ARMv7"),
  (0x101, "ARMv8"),
  (0x104, "SH-3"),
  (0x105, "SH-4"),
  (0x118, "ARM"),
  (0x119, "StrongARM"),
  (0x12C, "6x86"),
  (0x12D, "MediaGX"),
  (0x12E, "MII"),
  (0x140, "WinChip"),
  (0x15E, "DSP"),
  (0x1F4, "Video Processor"),
  (0x200, "RV32"),
  (0x201, "RV64"),
  (0x202, "RV128")
]

/-- The binary search loop of `dmi_processor_family`:
`i = (low + high) / 2; if equal return name; if low == high return
out-of-spec; else shrink to [low, i] or [i+1, high]`.  The fuel bounds the
number of iterations; the wrapper supplies enough for the loop never to be
cut short. -/
def family2_search (code : Nat) : Nat → Nat → Nat → String
  | 0, _, _ => out_of_spec
  | fuel + 1, low, high =>
    let i := (low + high) / 2
    let e := family2.getD i (0, "")
    if e.1 = code then e.2
    else if low = high then out_of_spec
    else if code < e.1 then family2_search code fuel low i
    else family2_search code fuel (i + 1) high

/-- `dmi_processor_family`'s binary search over the whole table. -/
def dmi_processor_family_search (code : Nat) : String :=
  family2_search code family2.length 0 (family2.length - 1)

/-- `tolower` on a byte, as used by `strncasecmp`. -/
def toLowerByte (b : Nat) : Nat :=
  if 0x41 ≤ b ∧ b ≤ 0x5A then b + 0x20 else b

/-- `strncasecmp(s1, s2, n) == 0` for NUL-free byte strings (list end plays
the role of the terminating NUL). -/
def strncasecmp_eq : List Nat → List Nat → Nat → Bool
  | _, _, 0 => true
  | [], [], _ + 1 => true
  | [], _ :: _, _ + 1 => false
  | _ :: _, [], _ + 1 => false
  | a :: as, b :: bs, n + 1 =>
    if toLowerByte a ≠ toLowerByte b then false
    else strncasecmp_eq as bs n

/-- Byte codes of `"Intel"`. -/
def intelBytes : List Nat := strCodes "Intel"

/-- Byte codes of `"AMD"`. -/
def amdBytes : List Nat := strCodes "AMD"

/-- Does `pat` occur as a prefix of `s`?  (Helper for `strstr`.) -/
def substring_at : List Nat → List Nat → Bool
  | [], _ => true
  | _ :: _, [] => false
  | a :: ps, b :: ss => (a == b) && substring_at ps ss

/-- `strstr(m, pat) != NULL`: `pat` occurs somewhere in `m`. -/
def strstr_found : List Nat → List Nat → Bool
  | [], pat => pat.isEmpty
  | b :: rest, pat => substring_at pat (b :: rest) || strstr_found rest pat

/-- `strstr(m, pat) != NULL || strncasecmp(m, pat, n) == 0`: the
manufacturer-string heuristic of `dmi_processor_family`. -/
def manufacturer_match (m pat : List Nat) (n : Nat) : Bool :=
  strstr_found m pat || strncasecmp_eq m pat n

/-- The effective family code: `data[0x06]`, or `WORD(data + 0x28)` when
`data[0x06] == 0xFE` and the record is long enough. -/
def famCode (h : DmiHeader) : Nat :=
  if byteAt h.data 0x06 = 0xFE ∧ h.length ≥ 0x2A then wordAt h.data 0x28
  else byteAt h.data 0x06

/-- `dmi_processor_family`. -/
def dmi_processor_family (h : DmiHeader) (ver : Nat) : String :=
  if ver = 0x0200 ∧ byteAt h.data 0x06 = 0x30 ∧ h.length ≥ 0x08 ∧
      manufacturer_match (dmi_string h (byteAt h.data 0x07)) intelBytes 5 then
    "Pentium Pro"
  else
    let code := famCode h
    if code = 0xBE then
      if h.length ≥ 0x08 then
        if manufacturer_match (dmi_string h (byteAt h.data 0x07)) intelBytes 5
        then "Core 2"
        else if manufacturer_match (dmi_string h (byteAt h.data 0x07)) amdBytes 3
        then "K7"
        else "Core 2 or K7"
      else "Core 2 or K7"
    else dmi_processor_family_search code

theorem family2_getD_eq_get (k : Nat) (hk : k < family2.length) :
    family2.getD k (0, "") = family2.get ⟨k, hk⟩ := by
  simp [List.getD_eq_getElem?_getD, List.getElem?_eq_getElem hk,
    List.get_eq_getElem]

/-- Executable strict-ascending check on a key list. -/
def keysSorted : List Nat → Bool
  | [] => true
  | [_] => true
  | a :: b :: rest => decide (a < b) && keysSorted (b :: rest)

theorem keysSorted_chain' : ∀ l, keysSorted l = true → List.Chain' (· < ·) l
  | [], _ => by simp
  | [a], _ => by simp
  | a :: b :: rest, h => by
    rw [keysSorted, Bool.and_eq_true] at h
    rw [List.chain'_cons]
    exact ⟨by simpa using h.1, keysSorted_chain' (b :: rest) h.2⟩

/-- The family table's key column is strictly increasing. -/
theorem family2_key_mono (i j : Nat) (hij : i < j) (hj : j < family2.length) :
    (family2.getD i (0, "")).1 < (family2.getD j (0, "")).1 := by
  have hch : List.Chain' (· < ·) (family2.map Prod.fst) :=
    keysSorted_chain' _ (by decide)
  have hpw := List.chain'_iff_pairwise.mp hch
  have hi : i < family2.length := by omega
  have hlen : (family2.map Prod.fst).length = family2.length := by simp
  have h := List.pairwise_iff_get.mp hpw ⟨i, by omega⟩ ⟨j, by omega⟩
    (Fin.mk_lt_mk.mpr hij)
  rw [family2_getD_eq_get i hi, family2_getD_eq_get j hj]
  simpa [List.get_eq_getElem, List.getElem_map] using h

/-- If the code is present in the search window, the binary search returns
its name. -/
theorem family2_search_found (code : Nat) (name : String) :
    ∀ fuel low high idx, low ≤ idx → idx ≤ high → high < family2.length →
      high - low < fuel → family2.getD idx (0, "") = (code, name) →
      family2_search code fuel low high = name := by
  intro fuel
  induction fuel with
  | zero => intro low high idx h1 h2 h3 h4 h5; omega
  | succ n ih =>
    intro low high idx h1 h2 h3 h4 h5
    have hkey : (family2.getD idx (0, "")).1 = code := by rw [h5]
    simp only [family2_search]
    by_cases hc1 : (family2.getD ((low + high) / 2) (0, "")).1 = code
    · rw [if_pos hc1]
      have hmid : (low + high) / 2 = idx := by
        rcases lt_trichotomy ((low + high) / 2) idx with hlt | heq | hgt
        · have hm := family2_key_mono _ _ hlt (by omega)
          rw [hkey, hc1] at hm
          omega
        · exact heq
        · have hm := family2_key_mono _ _ hgt (by omega)
          rw [hkey, hc1] at hm
          omega
      rw [hmid, h5]
    · rw [if_neg hc1]
      by_cases hc2 : low = high
      · exfalso
        apply hc1
        have hmid : (low + high) / 2 = idx := by omega
        rw [hmid, h5]
      · rw [if_neg hc2]
        by_cases hc3 : code < (family2.getD ((low + high) / 2) (0, "")).1
        · rw [if_pos hc3]
          refine ih low ((low + high) / 2) idx h1 ?_ (by omega) (by omega) h5
          by_contra hgt
          push_neg at hgt
          have hm := family2_key_mono _ _ hgt (by omega)
          rw [hkey] at hm
          omega
        · rw [if_neg hc3]
          have hki : (family2.getD ((low + high) / 2) (0, "")).1 < code := by
            rcases Nat.lt_trichotomy (family2.getD ((low + high) / 2) (0, "")).1
              code with hx | hx | hx
            · exact hx
            · exact absurd hx hc1
            · exact absurd hx hc3
          refine ih ((low + high) / 2 + 1) high idx ?_ h2 h3 (by omega) h5
          by_contra hle
          push_neg at hle
          rcases Nat.lt_or_ge idx ((low + high) / 2) with hlt | hge
          · have hm := family2_key_mono _ _ hlt (by omega)
            rw [hkey] at hm
            omega
          · have hmid : idx = (low + high) / 2 := by omega
            rw [hmid] at hkey
            exact hc1 hkey

/-- If the code is absent from the search window, the binary search returns
the out-of-spec marker. -/
theorem family2_search_notfound (code : Nat) :
    ∀ fuel low high, low ≤ high → high < family2.length → high - low < fuel →
      (∀ idx, low ≤ idx → idx ≤ high →
        (family2.getD idx (0, "")).1 ≠ code) →
      family2_search code fuel low high = out_of_spec := by
  intro fuel
  induction fuel with
  | zero => intro low high h1 h2 h3 h4; omega
  | succ n ih =>
    intro low high h1 h2 h3 hnone
    simp only [family2_search]
    rw [if_neg (hnone ((low + high) / 2) (by omega) (by omega))]
    by_cases hc2 : low = high
    · rw [if_pos hc2]
    · rw [if_neg hc2]
      by_cases hc3 : code < (family2.getD ((low + high) / 2) (0, "")).1
      · rw [if_pos hc3]
        exact ih low ((low + high) / 2) (by omega) (by omega) (by omega)
          (fun idx hi1 hi2 => hnone idx hi1 (by omega))
      · rw [if_neg hc3]
        exact ih ((low + high) / 2 + 1) high (by omega) h2 (by omega)
          (fun idx hi1 hi2 => hnone idx (by omega) hi2)

/-- C9: for the ambiguous family code 0xBE on a record long enough to carry a
manufacturer string, an Intel-matching manufacturer (substring or
case-insensitive prefix) yields "Core 2", an AMD-matching one yields "K7",
and otherwise the single fallback "Core 2 or K7" is returned; every
non-special code is resolved by binary search over the sorted family table,
returning the out-of-spec marker when the code is not present. -/
theorem dmi_processor_family_spec (h : DmiHeader) (ver : Nat)
    (hbe : byteAt h.data 0x06 = 0xBE) (hlen : 0x08 ≤ h.length) :
    (manufacturer_match (dmi_string h (byteAt h.data 0x07)) intelBytes 5 = true →
      dmi_processor_family h ver = "Core 2") ∧
    (manufacturer_match (dmi_string h (byteAt h.data 0x07)) intelBytes 5 = false →
     manufacturer_match (dmi_string h (byteAt h.data 0x07)) amdBytes 3 = true →
      dmi_processor_family h ver = "K7") ∧
    (manufacturer_match (dmi_string h (byteAt h.data 0x07)) intelBytes 5 = false →
     manufacturer_match (dmi_string h (byteAt h.data 0x07)) amdBytes 3 = false →
      dmi_processor_family h ver = "Core 2 or K7") ∧
    (∀ code name, (code, name) ∈ family2 →
      dmi_processor_family_search code = name) ∧
    (∀ code, (∀ p ∈ family2, p.1 ≠ code) →
      dmi_processor_family_search code = out_of_spec) ∧
    (∀ (h2 : DmiHeader) (ver2 : Nat),
      ¬(ver2 = 0x0200 ∧ byteAt h2.data 0x06 = 0x30 ∧ h2.length ≥ 0x08 ∧
        manufacturer_match (dmi_string h2 (byteAt h2.data 0x07)) intelBytes 5 =
          true) →
      famCode h2 ≠ 0xBE →
      dmi_processor_family h2 ver2 = dmi_processor_family_search (famCode h2)) := by
  have hN : family2.length = 214 := rfl
  have hbody : dmi_processor_family h ver =
      (if manufacturer_match (dmi_string h (byteAt h.data 0x07)) intelBytes 5
       then "Core 2"
       else if manufacturer_match (dmi_string h (byteAt h.data 0x07)) amdBytes 3
       then "K7"
       else "Core 2 or K7") := by
    rw [dmi_processor_family,
      if_neg (by rintro ⟨-, h30, -⟩; rw [hbe] at h30; norm_num at h30)]
    have hfam : famCode h = 0xBE := by
      rw [famCode, if_neg (by rintro ⟨hfe, -⟩; rw [hbe] at hfe; norm_num at hfe),
        hbe]
    simp only [hfam, if_pos rfl, if_pos (show 0x08 ≤ h.length from hlen)]
    simp
  refine ⟨?_, ?_, ?_, ?_, ?_, ?_⟩
  · intro hintel
    rw [hbody, if_pos hintel]
  · intro hintel hamd
    rw [hbody, if_neg (by simp [hintel]), if_pos hamd]
  · intro hintel hamd
    rw [hbody, if_neg (by simp [hintel]), if_neg (by simp [hamd])]
  · intro code name hmem
    obtain ⟨idx, hidx⟩ := List.mem_iff_get.mp hmem
    refine family2_search_found code name family2.length 0
      (family2.length - 1) idx.1 (Nat.zero_le _) (by have := idx.2; omega)
      (by omega) (by have := idx.2; omega) ?_
    rw [family2_getD_eq_get idx.1 idx.2]
    simpa using hidx
  · intro code hnone
    refine family2_search_notfound code family2.length 0 (family2.length - 1)
      (by omega) (by omega) (by omega) ?_
    intro idx h1 h2
    have hidx : idx < family2.length := by omega
    rw [family2_getD_eq_get idx hidx]
    exact hnone (family2.get ⟨idx, hidx⟩) (family2.get_mem _ _)
  · intro h2 ver2 hns hcode
    rw [dmi_processor_family, if_neg hns]
    simp only []
    rw [if_neg hcode]

/-- A concrete Processor Information record with family code 0xBE and
manufacturer string "Intel". -/
def c9buf : List Nat :=
  [4, 8, 0, 0, 0, 0, 0xBE, 1, 0x49, 0x6E, 0x74, 0x65, 0x6C, 0, 0]

set_option maxRecDepth 8192 in
/-- Witness for C9: the 0xBE record with manufacturer "Intel" decodes to
"Core 2"; binary search finds code 0x03 ("8086") and reports the reserved
code 0x16 as out of spec. -/
theorem dmi_processor_family_spec_witness :
    (byteAt c9buf 0x06 = 0xBE ∧ 0x08 ≤ (to_dmi_header c9buf).length ∧
     manufacturer_match (dmi_string (to_dmi_header c9buf) (byteAt c9buf 0x07))
       intelBytes 5 = true) ∧
    dmi_processor_family (to_dmi_header c9buf) 0x0203 = "Core 2" ∧
    dmi_processor_family_search 0x03 = "8086" ∧
    dmi_processor_family_search 0x16 = out_of_spec := by
  have h := dmi_processor_family_spec (to_dmi_header c9buf) 0x0203 (by decide)
    (by decide)
  exact ⟨⟨by decide, by decide, by decide⟩,
    h.1 (by decide),
    h.2.2.2.1 0x03 "8086" (by decide),
    h.2.2.2.2.1 0x16 (by decide)⟩

/-! ## The decode pass of the table walker (`dmi_table_decode`)

The embedding covers the second (decode) pass and the post-walk consistency
diagnostics.  The first pass produces no output: it only captures the vendor
strings consumed by OEM-specific decoders, and does not touch the option
flags.  The per-record work done by `dmi_decode` / `dmi_dump` /
`dmi_table_string` is abstracted into single output events carrying the
record's position and parsed header; their internals are modelled separately
(see `dmi_decode_type16`, `dmi_processor_family`). -/

/-- The query configuration from the CLI layer: `opt.type` (type allow-set),
`opt.handle` (`~0U` mapped to `none`), `opt.string` (single-string mode and
its type key), and the `FLAG_DUMP` bit.  The mutable `FLAG_QUIET` bit lives
in the walk state. -/
structure Opts where
  typeSel : Option (Nat → Bool)
  handleSel : Option Nat
  stringMode : Bool
  stringType : Nat
  dump : Bool

/-- The loop state of the decode pass: current offset (`data - buf`), the
number of records consumed (`i`), and the `FLAG_QUIET` bit of the global
options (which the loop itself can set). -/
structure WalkState where
  pos : Nat
  i : Nat
  quiet : Bool
deriving DecidableEq

/-- Output events of the decode pass. -/
inductive Ev where
  | handle (type len hnd : Nat)
  | invalidLength (len : Nat)
  | truncated
  | sep
  | fixup
  | dumped (pos : Nat)
  | decoded (pos type len : Nat)
  | tableString (pos : Nat)
  | wrongCount (announced decoded : Nat)
  | wrongLength (announced occupied : Nat)
deriving DecidableEq

/-- `is_printable`: all `len` bytes starting at `off` are in [32,126]. -/
def is_printable (buf : List Nat) (off len : Nat) : Bool :=
  (List.range len).all fun k =>
    decide (32 ≤ byteAt buf (off + k)) && decide (byteAt buf (off + k) < 127)

/-- The `display` condition of the decode pass. -/
def displayOf (opts : Opts) (quiet : Bool) (h : DmiHeader) : Bool :=
  (match opts.typeSel with
   | none => true
   | some sel => sel h.type) &&
  (match opts.handleSel with
   | none => true
   | some hd => hd == h.handle) &&
  !(quiet && (h.type == 126 || h.type == 127)) &&
  !opts.stringMode

/-- The `pr_handle` event of one record (printed before the truncation
check, when the record is displayed and quiet mode is off or dump mode is
on). -/
def dmi_handle_events (buf : List Nat) (opts : Opts) (st : WalkState) :
    List Ev :=
  let h := to_dmi_header (buf.drop st.pos)
  if displayOf opts st.quiet h && (!st.quiet || opts.dump) then
    [Ev.handle h.type h.length h.handle]
  else []

/-- The events of one record's body, after the truncation check: the
type-34 length fixup notice, then the dispatch to `dmi_dump` /
`dmi_decode` / `dmi_table_string` according to the display and dump
settings. -/
def dmi_body_events (buf : List Nat) (opts : Opts) (st : WalkState) :
    List Ev :=
  let h := to_dmi_header (buf.drop st.pos)
  let display := displayOf opts st.quiet h
  let fix := h.type = 34 ∧ h.length = 0x10 ∧
    is_printable buf (st.pos + 0x0B) 5
  let hlen2 := if fix then 0x0B else h.length
  (if fix ∧ ¬st.quiet ∧ display then [Ev.fixup] else []) ++
  (if display then
     if opts.dump then [Ev.dumped st.pos, Ev.sep]
     else [Ev.decoded st.pos h.type hlen2]
   else if opts.stringMode ∧ opts.stringType = h.type then
     [Ev.tableString st.pos]
   else [])

/-- The decode loop of `dmi_table_decode` (second pass), with the printed
events accumulated in `acc`.  The fuel bounds the number of iterations; the
wrapper supplies enough for it never to be exhausted. -/
def dmi_table_pass2 (buf : List Nat) (len num : Nat) (opts : Opts)
    (stopAtEot : Bool) : Nat → WalkState → List Ev → List Ev × WalkState
  | 0, st, acc => (acc, st)
  | fuel + 1, st, acc =>
    if (st.i < num ∨ num = 0) ∧ st.pos + 4 ≤ len then
      let h := to_dmi_header (buf.drop st.pos)
      if h.length < 4 then
        if st.quiet then (acc, st)
        else (acc ++ [Ev.invalidLength h.length], ⟨st.pos, st.i, true⟩)
      else
        if st.quiet ∧ h.type = 127 then (acc, ⟨st.pos, st.i + 1, st.quiet⟩)
        else
          let next := next_offset buf len st.pos h.length
          if len < next then
            (acc ++ dmi_handle_events buf opts st ++
               (if displayOf opts st.quiet h && !st.quiet then [Ev.truncated]
                else []) ++ [Ev.sep],
             ⟨next, st.i + 1, st.quiet⟩)
          else
            let acc3 := acc ++ dmi_handle_events buf opts st ++
              dmi_body_events buf opts st
            if h.type = 127 ∧ stopAtEot then (acc3, ⟨next, st.i + 1, st.quiet⟩)
            else dmi_table_pass2 buf len num opts stopAtEot fuel
              ⟨next, st.i + 1, st.quiet⟩ acc3
    else (acc, st)

/-- The post-walk count/length consistency diagnostics. -/
def dmi_post_walk (len num : Nat) (st : WalkState) : List Ev :=
  if st.quiet then []
  else
    (if num ≠ 0 ∧ st.i ≠ num then [Ev.wrongCount num st.i] else []) ++
    (if len < st.pos ∨ (num ≠ 0 ∧ st.pos < len) then
       [Ev.wrongLength len st.pos] else [])

/-- `dmi_table_decode`: the decode pass followed by the post-walk
diagnostics (`quiet0` is the initial `FLAG_QUIET` bit). -/
def dmi_table_decode (buf : List Nat) (len num : Nat) (opts : Opts)
    (stopAtEot quiet0 : Bool) : List Ev :=
  let r := dmi_table_pass2 buf len num opts stopAtEot (len + 1) ⟨0, 0, quiet0⟩ []
  r.1 ++ dmi_post_walk len num r.2

/-- C2: when the decode pass meets a record whose computed end exceeds the
buffer bound while its declared length is at least 4, it emits the handle
header and the truncation marker for that one record (when the record is
displayed and quiet mode is off), a separator, does not decode any field of
the record, and returns — stopping the pass; everything accumulated for
earlier records (`acc`) is preserved unchanged. -/
theorem dmi_table_truncated_step (buf : List Nat) (len num : Nat)
    (opts : Opts) (stopAtEot : Bool) (fuel : Nat) (st : WalkState)
    (acc : List Ev)
    (hguard : (st.i < num ∨ num = 0) ∧ st.pos + 4 ≤ len)
    (hlen4 : 4 ≤ (to_dmi_header (buf.drop st.pos)).length)
    (hnoeot : ¬(st.quiet ∧ (to_dmi_header (buf.drop st.pos)).type = 127))
    (htrunc : len <
      next_offset buf len st.pos (to_dmi_header (buf.drop st.pos)).length) :
    dmi_table_pass2 buf len num opts stopAtEot (fuel + 1) st acc =
      (acc ++ dmi_handle_events buf opts st ++
        (if displayOf opts st.quiet (to_dmi_header (buf.drop st.pos)) &&
            !st.quiet then [Ev.truncated] else []) ++ [Ev.sep],
       ⟨next_offset buf len st.pos (to_dmi_header (buf.drop st.pos)).length,
        st.i + 1, st.quiet⟩) ∧
    (∀ p t l, Ev.decoded p t l ∉
      (dmi_table_pass2 buf len num opts stopAtEot (fuel + 1) st acc).1.drop
        acc.length) := by
  have hmain : dmi_table_pass2 buf len num opts stopAtEot (fuel + 1) st acc =
      (acc ++ dmi_handle_events buf opts st ++
        (if displayOf opts st.quiet (to_dmi_header (buf.drop st.pos)) &&
            !st.quiet then [Ev.truncated] else []) ++ [Ev.sep],
       ⟨next_offset buf len st.pos (to_dmi_header (buf.drop st.pos)).length,
        st.i + 1, st.quiet⟩) := by
    simp only [dmi_table_pass2]
    rw [if_pos hguard, if_neg (by omega), if_neg hnoeot, if_pos htrunc]
  refine ⟨hmain, ?_⟩
  intro p t l
  rw [hmain]
  rw [show ∀ A B : List Ev, acc ++ A ++ B ++ [Ev.sep] =
      acc ++ (A ++ B ++ [Ev.sep]) from by intro A B; simp,
    List.drop_left]
  rw [dmi_handle_events]
  split_ifs
  all_goals simp

/-- Witness for C2: a type-16 record claiming 10 bytes in a 4-byte buffer is
reported truncated; the pass emits exactly handle, truncation marker and
separator, and stops. -/
theorem dmi_table_truncated_step_witness :
    (((0:Nat) < 0 ∨ (0:Nat) = 0) ∧ 0 + 4 ≤ 4) ∧
    4 ≤ (to_dmi_header (List.drop 0 [16, 10, 0, 0])).length ∧
    (4:Nat) < next_offset [16, 10, 0, 0] 4 0
      (to_dmi_header (List.drop 0 [16, 10, 0, 0])).length ∧
    dmi_table_pass2 [16, 10, 0, 0] 4 0 ⟨none, none, false, 0, false⟩ false 1
        ⟨0, 0, false⟩ [] =
      ([Ev.handle 16 10 0, Ev.truncated, Ev.sep], ⟨12, 1, false⟩) := by
  refine ⟨by decide, by decide, by decide, ?_⟩
  exact (dmi_table_truncated_step [16, 10, 0, 0] 4 0
    ⟨none, none, false, 0, false⟩ false 0 ⟨0, 0, false⟩ []
    (by decide) (by decide) (by decide) (by decide)).1.trans (by decide)

/-- C3: when the decode pass meets a record with declared length < 4, the
walk stops immediately at that record, a diagnostic is printed unless quiet
mode is active, and everything accumulated for the records decoded before
that point (`acc`) is preserved unchanged. -/
theorem dmi_table_short_record_stops (buf : List Nat) (len num : Nat)
    (opts : Opts) (stopAtEot : Bool) (fuel : Nat) (st : WalkState)
    (acc : List Ev)
    (hguard : (st.i < num ∨ num = 0) ∧ st.pos + 4 ≤ len)
    (hshort : (to_dmi_header (buf.drop st.pos)).length < 4) :
    dmi_table_pass2 buf len num opts stopAtEot (fuel + 1) st acc =
      (acc ++ (if st.quiet then [] else
        [Ev.invalidLength (to_dmi_header (buf.drop st.pos)).length]),
       if st.quiet then st else ⟨st.pos, st.i, true⟩) := by
  simp only [dmi_table_pass2]
  rw [if_pos hguard, if_pos hshort]
  by_cases hq : st.quiet = true
  all_goals simp [hq]

/-- Witness for C3: a record with declared length 2 stops the walk with the
invalid-length diagnostic, keeping the previously accumulated event. -/
theorem dmi_table_short_record_stops_witness :
    (((0:Nat) < 0 ∨ (0:Nat) = 0) ∧ 0 + 4 ≤ 4) ∧
    (to_dmi_header (List.drop 0 [1, 2, 0, 0])).length < 4 ∧
    dmi_table_pass2 [1, 2, 0, 0] 4 0 ⟨none, none, false, 0, false⟩ false 1
        ⟨0, 0, false⟩ [Ev.decoded 0 1 8] =
      ([Ev.decoded 0 1 8, Ev.invalidLength 2], ⟨0, 0, true⟩) := by
  refine ⟨by decide, by decide, ?_⟩
  exact (dmi_table_short_record_stops [1, 2, 0, 0] 4 0
    ⟨none, none, false, 0, false⟩ false 0 ⟨0, 0, false⟩ [Ev.decoded 0 1 8]
    (by decide) (by decide)).trans (by decide)

/-- Is an event the invalid-entry-length diagnostic? -/
def isInvalidEv : Ev → Bool
  | Ev.invalidLength _ => true
  | _ => false

/-- Is an event one of the post-walk count/length mismatch diagnostics? -/
def isMismatchEv : Ev → Bool
  | Ev.wrongCount _ _ => true
  | Ev.wrongLength _ _ => true
  | _ => false

theorem dmi_handle_events_counts (buf : List Nat) (opts : Opts)
    (st : WalkState) :
    (dmi_handle_events buf opts st).countP isInvalidEv = 0 ∧
    (dmi_handle_events buf opts st).countP isMismatchEv = 0 := by
  rw [dmi_handle_events]
  split_ifs
  all_goals simp [isInvalidEv, isMismatchEv]

theorem dmi_body_events_counts (buf : List Nat) (opts : Opts)
    (st : WalkState) :
    (dmi_body_events buf opts st).countP isInvalidEv = 0 ∧
    (dmi_body_events buf opts st).countP isMismatchEv = 0 := by
  rw [dmi_body_events]
  split_ifs
  all_goals simp [isInvalidEv, isMismatchEv]

/-- Loop invariant of the decode pass: at most one invalid-length diagnostic
is ever added, adding one forces the final quiet flag, and no mismatch
diagnostic is ever produced by the loop itself. -/
theorem dmi_table_pass2_counts (buf : List Nat) (len num : Nat) (opts : Opts)
    (stopAtEot : Bool) :
    ∀ fuel st acc,
      ((dmi_table_pass2 buf len num opts stopAtEot fuel st acc).1.countP
          isInvalidEv ≤ acc.countP isInvalidEv + 1) ∧
      (acc.countP isInvalidEv <
          (dmi_table_pass2 buf len num opts stopAtEot fuel st acc).1.countP
            isInvalidEv →
        (dmi_table_pass2 buf len num opts stopAtEot fuel st acc).2.quiet =
          true) ∧
      ((dmi_table_pass2 buf len num opts stopAtEot fuel st acc).1.countP
          isMismatchEv = acc.countP isMismatchEv) := by
  intro fuel
  induction fuel with
  | zero =>
    intro st acc
    exact ⟨by simp [dmi_table_pass2], by simp [dmi_table_pass2], rfl⟩
  | succ n ih =>
    intro st acc
    by_cases hg : ((st.i < num ∨ num = 0) ∧ st.pos + 4 ≤ len)
    case neg =>
      have he : dmi_table_pass2 buf len num opts stopAtEot (n + 1) st acc =
          (acc, st) := by
        simp only [dmi_table_pass2]
        rw [if_neg hg]
      rw [he]
      exact ⟨Nat.le_succ _, fun hlt => absurd hlt (lt_irrefl _), rfl⟩
    case pos =>
      by_cases hs : (to_dmi_header (buf.drop st.pos)).length < 4
      · by_cases hq : st.quiet = true
        · have he : dmi_table_pass2 buf len num opts stopAtEot (n + 1) st acc =
              (acc, st) := by
            simp only [dmi_table_pass2]
            rw [if_pos hg, if_pos hs, if_pos hq]
          rw [he]
          exact ⟨Nat.le_succ _, fun hlt => absurd hlt (lt_irrefl _), rfl⟩
        · have he : dmi_table_pass2 buf len num opts stopAtEot (n + 1) st acc =
              (acc ++ [Ev.invalidLength
                 (to_dmi_header (buf.drop st.pos)).length],
               ⟨st.pos, st.i, true⟩) := by
            simp only [dmi_table_pass2]
            rw [if_pos hg, if_pos hs, if_neg hq]
          rw [he]
          refine ⟨?_, fun _ => rfl, ?_⟩
          · simp [List.countP_append, isInvalidEv]
          · simp [List.countP_append, isMismatchEv]
      · by_cases heot : (st.quiet = true ∧
            (to_dmi_header (buf.drop st.pos)).type = 127)
        · have he : dmi_table_pass2 buf len num opts stopAtEot (n + 1) st acc =
              (acc, ⟨st.pos, st.i + 1, st.quiet⟩) := by
            simp only [dmi_table_pass2]
            rw [if_pos hg, if_neg (by omega), if_pos heot]
          rw [he]
          exact ⟨Nat.le_succ _, fun hlt => absurd hlt (lt_irrefl _), rfl⟩
        · by_cases htr : (len < next_offset buf len st.pos
              (to_dmi_header (buf.drop st.pos)).length)
          · have he : dmi_table_pass2 buf len num opts stopAtEot (n + 1) st
                acc =
                (acc ++ dmi_handle_events buf opts st ++
                  (if displayOf opts st.quiet
                      (to_dmi_header (buf.drop st.pos)) && !st.quiet then
                    [Ev.truncated] else []) ++ [Ev.sep],
                 ⟨next_offset buf len st.pos
                    (to_dmi_header (buf.drop st.pos)).length,
                  st.i + 1, st.quiet⟩) := by
              simp only [dmi_table_pass2]
              rw [if_pos hg, if_neg (by omega), if_neg heot, if_pos htr]
            rw [he]
            obtain ⟨hh1, hh2⟩ := dmi_handle_events_counts buf opts st
            refine ⟨?_, ?_, ?_⟩
            · split_ifs
              all_goals simp [List.countP_append, isInvalidEv, hh1]
            · intro hlt
              exfalso
              revert hlt
              split_ifs
              all_goals simp [List.countP_append, isInvalidEv, hh1]
            · split_ifs
              all_goals simp [List.countP_append, isMismatchEv, hh2]
          · have he : dmi_table_pass2 buf len num opts stopAtEot (n + 1) st
                acc =
                (if (to_dmi_header (buf.drop st.pos)).type = 127 ∧
                    stopAtEot = true then
                  (acc ++ dmi_handle_events buf opts st ++
                     dmi_body_events buf opts st,
                   ⟨next_offset buf len st.pos
                      (to_dmi_header (buf.drop st.pos)).length,
                    st.i + 1, st.quiet⟩)
                 else dmi_table_pass2 buf len num opts stopAtEot n
                   ⟨next_offset buf len st.pos
                      (to_dmi_header (buf.drop st.pos)).length,
                    st.i + 1, st.quiet⟩
                   (acc ++ dmi_handle_events buf opts st ++
                      dmi_body_events buf opts st)) := by
              simp only [dmi_table_pass2]
              rw [if_pos hg, if_neg (by omega), if_neg heot, if_neg htr]
            rw [he]
            obtain ⟨hh1, hh2⟩ := dmi_handle_events_counts buf opts st
            obtain ⟨hb1, hb2⟩ := dmi_body_events_counts buf opts st
            have hacc3inv : (acc ++ dmi_handle_events buf opts st ++
                dmi_body_events buf opts st).countP isInvalidEv =
                acc.countP isInvalidEv := by
              simp [List.countP_append, hh1, hb1]
            have hacc3mis : (acc ++ dmi_handle_events buf opts st ++
                dmi_body_events buf opts st).countP isMismatchEv =
                acc.countP isMismatchEv := by
              simp [List.countP_append, hh2, hb2]
            split_ifs
            · refine ⟨?_, ?_, ?_⟩
              · show (acc ++ dmi_handle_events buf opts st ++
                  dmi_body_events buf opts st).countP isInvalidEv ≤
                    acc.countP isInvalidEv + 1
                omega
              · show acc.countP isInvalidEv <
                  (acc ++ dmi_handle_events buf opts st ++
                    dmi_body_events buf opts st).countP isInvalidEv → _
                intro hlt
                rw [hacc3inv] at hlt
                exact absurd hlt (lt_irrefl _)
              · show (acc ++ dmi_handle_events buf opts st ++
                  dmi_body_events buf opts st).countP isMismatchEv =
                    acc.countP isMismatchEv
                omega
            · obtain ⟨ha, hb, hc⟩ := ih
                ⟨next_offset buf len st.pos
                   (to_dmi_header (buf.drop st.pos)).length,
                 st.i + 1, st.quiet⟩
                (acc ++ dmi_handle_events buf opts st ++
                   dmi_body_events buf opts st)
              refine ⟨by omega, ?_, by omega⟩
              intro hlt
              exact hb (by omega)

theorem dmi_post_walk_inv_count (len num : Nat) (st : WalkState) :
    (dmi_post_walk len num st).countP isInvalidEv = 0 := by
  rw [dmi_post_walk]
  split_ifs
  all_goals simp [List.countP_append, isInvalidEv]

theorem dmi_post_walk_quiet (len num : Nat) (st : WalkState)
    (h : st.quiet = true) : dmi_post_walk len num st = [] := by
  rw [dmi_post_walk, if_pos h]

/-- C10: on meeting a record with declared length < 4 while quiet mode is
off, the decode pass prints the invalid-length diagnostic and permanently
sets the quiet flag, and the post-walk diagnostics for the resulting state
are suppressed; consequently, on any run the invalid-length diagnostic
appears at most once, and a run that contains it contains no post-walk
count/length mismatch diagnostic. -/
theorem dmi_table_invalid_once (buf : List Nat) (len num : Nat) (opts : Opts)
    (stopAtEot : Bool) (fuel : Nat) (st : WalkState) (acc : List Ev)
    (hguard : (st.i < num ∨ num = 0) ∧ st.pos + 4 ≤ len)
    (hshort : (to_dmi_header (buf.drop st.pos)).length < 4)
    (hq : st.quiet = false) :
    dmi_table_pass2 buf len num opts stopAtEot (fuel + 1) st acc =
      (acc ++ [Ev.invalidLength (to_dmi_header (buf.drop st.pos)).length],
       ⟨st.pos, st.i, true⟩) ∧
    dmi_post_walk len num ⟨st.pos, st.i, true⟩ = [] ∧
    (∀ buf2 len2 num2 opts2 stop2 q0,
      (dmi_table_decode buf2 len2 num2 opts2 stop2 q0).countP isInvalidEv
        ≤ 1 ∧
      ((∃ l, Ev.invalidLength l ∈
          dmi_table_decode buf2 len2 num2 opts2 stop2 q0) →
        ∀ a b,
          Ev.wrongCount a b ∉ dmi_table_decode buf2 len2 num2 opts2 stop2 q0 ∧
          Ev.wrongLength a b ∉
            dmi_table_decode buf2 len2 num2 opts2 stop2 q0)) := by
  refine ⟨?_, dmi_post_walk_quiet len num ⟨st.pos, st.i, true⟩ rfl, ?_⟩
  · simp only [dmi_table_pass2]
    rw [if_pos hguard, if_pos hshort, if_neg (by simp [hq])]
  · intro buf2 len2 num2 opts2 stop2 q0
    obtain ⟨ha, hb, hc⟩ := dmi_table_pass2_counts buf2 len2 num2 opts2 stop2
      (len2 + 1) ⟨0, 0, q0⟩ []
    have h0inv : ([] : List Ev).countP isInvalidEv = 0 := rfl
    have h0mis : ([] : List Ev).countP isMismatchEv = 0 := rfl
    have hrun : dmi_table_decode buf2 len2 num2 opts2 stop2 q0 =
        (dmi_table_pass2 buf2 len2 num2 opts2 stop2 (len2 + 1)
          ⟨0, 0, q0⟩ []).1 ++
        dmi_post_walk len2 num2
          (dmi_table_pass2 buf2 len2 num2 opts2 stop2 (len2 + 1)
            ⟨0, 0, q0⟩ []).2 := rfl
    have hpost0 := dmi_post_walk_inv_count len2 num2
      (dmi_table_pass2 buf2 len2 num2 opts2 stop2 (len2 + 1) ⟨0, 0, q0⟩ []).2
    constructor
    · rw [hrun, List.countP_append]
      omega
    · rintro ⟨l, hl⟩ a b
      rw [hrun] at hl
      have hl1 : Ev.invalidLength l ∈
          (dmi_table_pass2 buf2 len2 num2 opts2 stop2 (len2 + 1)
            ⟨0, 0, q0⟩ []).1 := by
        rcases List.mem_append.mp hl with hmm | hmm
        · exact hmm
        · exfalso
          have hfalse := List.countP_eq_zero.mp hpost0 _ hmm
          simp [isInvalidEv] at hfalse
      have hpos : 0 < (dmi_table_pass2 buf2 len2 num2 opts2 stop2 (len2 + 1)
          ⟨0, 0, q0⟩ []).1.countP isInvalidEv :=
        List.countP_pos_iff.mpr ⟨_, hl1, rfl⟩
      have hquiet := hb (by omega)
      have hpostnil := dmi_post_walk_quiet len2 num2
        (dmi_table_pass2 buf2 len2 num2 opts2 stop2 (len2 + 1)
          ⟨0, 0, q0⟩ []).2 hquiet
      rw [hrun, hpostnil, List.append_nil]
      have hmis0 : (dmi_table_pass2 buf2 len2 num2 opts2 stop2 (len2 + 1)
          ⟨0, 0, q0⟩ []).1.countP isMismatchEv = 0 := by omega
      constructor
      · intro hmem
        have hfalse := List.countP_eq_zero.mp hmis0 _ hmem
        simp [isMismatchEv] at hfalse
      · intro hmem
        have hfalse := List.countP_eq_zero.mp hmis0 _ hmem
        simp [isMismatchEv] at hfalse

/-- Witness for C10: a first valid record followed by a short record yields
exactly one invalid-length diagnostic, no mismatch diagnostics, and a final
quiet state. -/
theorem dmi_table_invalid_once_witness :
    ((1 < 2 ∨ (2:Nat) = 0) ∧ 6 + 4 ≤ 10) ∧
    (to_dmi_header (List.drop 6 [1, 4, 0, 0, 0, 0, 7, 2, 0, 0])).length < 4 ∧
    dmi_table_pass2 [1, 4, 0, 0, 0, 0, 7, 2, 0, 0] 10 2
        ⟨none, none, false, 0, false⟩ false 2 ⟨6, 1, false⟩
        [Ev.decoded 0 1 4] =
      ([Ev.decoded 0 1 4, Ev.invalidLength 2], ⟨6, 1, true⟩) ∧
    dmi_post_walk 10 2 ⟨6, 1, true⟩ = [] ∧
    (dmi_table_decode [1, 4, 0, 0, 0, 0, 7, 2, 0, 0] 10 2
        ⟨none, none, false, 0, false⟩ false false).countP isInvalidEv ≤ 1 ∧
    (∀ a b,
      Ev.wrongCount a b ∉ dmi_table_decode [1, 4, 0, 0, 0, 0, 7, 2, 0, 0] 10 2
        ⟨none, none, false, 0, false⟩ false false ∧
      Ev.wrongLength a b ∉ dmi_table_decode [1, 4, 0, 0, 0, 0, 7, 2, 0, 0] 10 2
        ⟨none, none, false, 0, false⟩ false false) := by
  have h := dmi_table_invalid_once [1, 4, 0, 0, 0, 0, 7, 2, 0, 0] 10 2
    ⟨none, none, false, 0, false⟩ false 1 ⟨6, 1, false⟩ [Ev.decoded 0 1 4]
    (by decide) (by decide) (by decide)
  refine ⟨by decide, by decide, h.1.trans (by decide), h.2.1, ?_, ?_⟩
  · exact (h.2.2 [1, 4, 0, 0, 0, 0, 7, 2, 0, 0] 10 2
      ⟨none, none, false, 0, false⟩ false false).1
  · exact fun a b => (h.2.2 [1, 4, 0, 0, 0, 0, 7, 2, 0, 0] 10 2
      ⟨none, none, false, 0, false⟩ false false).2 ⟨2, by decide⟩ a b

end Dmidecode
